import Mathlib

/-!
Verification of the scholar-agent core of the Pdf_read_rename_Agent repository.

This file gives a shallow embedding, in Lean 4, of the functions of
`src/agent_core/scholar_agent.py` that the specification's claims are about:

* `_llm_score_with_retry`  (rate-limited retry scoring),
* `find_next_pdf_replacement` and `download_pdfs` (download-with-backfill engine),
* `select_top_papers_llm` (top-N selection),
* `scholar_search` (scraper, modelled over a browser-session interface),
* `find_pdf_on_landing_page` (stub),
* `read_search_terms` (search-term loader),
* `sanitize_filename`.

External effects are modelled as explicit oracles threaded through the
functions: `requests.get` and LLM calls become functions on an abstract world
state, wall-clock time becomes an explicit rational clock advanced by sleeps
and call durations, Python's builtin `float(...)` parser becomes an oracle
`String → Option ℚ`, and the browser session becomes a record of the rendered
page source plus the per-result-node extraction outcomes.  Python `None`-able
link values are modelled as `Option String`; Python truthiness of a link
(`if link:`), which is false for both `None` and `""`, is made explicit.
-/

/-! ### String helpers (Python `in`, `str.isupper`) -/

/-- Python substring containment `sub in s`, on character lists:
some suffix of `l` starts with `sub`. -/
def charsStartWith : List Char → List Char → Bool
  | _, [] => true
  | [], _ :: _ => false
  | a :: as, b :: bs => a == b && charsStartWith as bs

/-- Python `sub in s` for strings. -/
def containsSub (s sub : String) : Bool :=
  let rec go : List Char → Bool
    | [] => charsStartWith [] sub.data
    | a :: as => charsStartWith (a :: as) sub.data || go as
  go s.data

/-- Python `str.isupper()` restricted to ASCII text: there is at least one
cased (alphabetic) character and no lowercase character. -/
def pyIsUpper (s : String) : Bool :=
  s.data.any (fun c => c.isAlpha) && s.data.all (fun c => !c.isLower)

/-- Python `s.startswith(pre)` (kernel-reducible). -/
def strStartsWith (s pre : String) : Bool :=
  charsStartWith s.data pre.data

/-- Python `s.endswith(suf)` (kernel-reducible). -/
def strEndsWith (s suf : String) : Bool :=
  charsStartWith s.data.reverse suf.data.reverse

/-- Python `s.strip()` for ASCII whitespace (kernel-reducible). -/
def pyStrip (s : String) : String :=
  String.mk (((s.data.dropWhile Char.isWhitespace).reverse.dropWhile
    Char.isWhitespace).reverse)

/-- Python `s.lower()` for ASCII text (kernel-reducible). -/
def pyLower (s : String) : String :=
  String.mk (s.data.map Char.toLower)

/-! ### Relevance scorer: `_llm_score_with_retry`

The Python function builds a prompt, waits out the shared rate-limit interval
(`self._last_llm_call`), then tries up to `max_retries` times:
`result = llm_client.generate_content(prompt).strip()` (`pyStrip`), then
`self._last_llm_call = time.time()`, then `return float(result)`.
A raise from `generate_content` leaves the timestamp untouched; a raise from
`float(...)` happens after the timestamp update.  Between failed attempts
(except after the last) it sleeps `min_interval`.  After all attempts fail it
returns `0.0`.

Time is an explicit rational clock.  The backend behaviour on the k-th attempt
is given by `backend k : LlmAttempt` (a duration plus either a raised error or
a returned response string); Python's `float` builtin is the oracle `pyFloat`.
Each issued backend call is recorded as a `CallEvent` for the temporal claims. -/

/-- Rate-limit state of one agent instance: the explicit wall clock and the
`_last_llm_call` attribute (`getattr(self, '_last_llm_call', 0)` defaults to 0
at construction, so the initial state has `last = 0`). -/
structure RLState where
  clock : ℚ
  last : ℚ
deriving DecidableEq, Repr

/-- Behaviour of one backend attempt: how long `generate_content` runs and
whether it raises (`Except.error`) or returns a response string. -/
structure LlmAttempt where
  dur : ℚ
  outcome : Except String String
deriving Repr

/-- Trace record of one issued backend call: when it was issued, whether
`generate_content` returned (rather than raised), and when it finished. -/
structure CallEvent where
  issueTime : ℚ
  returned : Bool
  retTime : ℚ
deriving DecidableEq, Repr

/-- The prompt built by `_llm_score_with_retry` from the query and title. -/
def buildPrompt (query title : String) : String :=
  "\nYou are an expert research assistant. Given the following search query and a paper title, rate the relevance of the paper to the query on a scale from 0 (not relevant) to 1 (highly relevant). Only output a single number between 0 and 1.\n\nSearch Query: " ++ query ++ "\nPaper Title: " ++ title ++ "\n"

/-- The retry loop of `_llm_score_with_retry` (`for attempt in range(1,
max_retries+1)`), with `remaining` attempts left and `attempt` the 1-based
attempt counter.  Returns the score, the final rate-limit state and the
chronological list of issued backend call events.  On a parse failure or a
raised call it sleeps `min_interval` iff another attempt follows
(`if attempt < max_retries`); after the loop it returns `0.0`. -/
def llmRetryLoop (pyFloat : String → Option ℚ) (backend : Nat → LlmAttempt)
    (minInterval : ℚ) : Nat → Nat → RLState → ℚ × RLState × List CallEvent
  | 0, _, st => (0, st, [])
  | remaining + 1, attempt, st =>
    let b := backend attempt
    let issue := st.clock
    let ret := st.clock + b.dur
    match b.outcome with
    | Except.ok s =>
      let st1 : RLState := ⟨ret, ret⟩
      let ev : CallEvent := ⟨issue, true, ret⟩
      match pyFloat (pyStrip s) with
      | some v => (v, st1, [ev])
      | none =>
        let st2 : RLState :=
          if remaining > 0 then ⟨st1.clock + minInterval, st1.last⟩ else st1
        let out := llmRetryLoop pyFloat backend minInterval remaining (attempt + 1) st2
        (out.1, out.2.1, ev :: out.2.2)
    | Except.error _ =>
      let st1 : RLState := ⟨ret, st.last⟩
      let ev : CallEvent := ⟨issue, false, ret⟩
      let st2 : RLState :=
        if remaining > 0 then ⟨st1.clock + minInterval, st1.last⟩ else st1
      let out := llmRetryLoop pyFloat backend minInterval remaining (attempt + 1) st2
      (out.1, out.2.1, ev :: out.2.2)

/-- `_llm_score_with_retry(query, title, llm_client, verbose, max_retries=5,
min_interval=12.1)`: computes `wait_time = max(0, min_interval - (now -
last_call))`, sleeps it, then runs the retry loop. -/
def llm_score_with_retry (pyFloat : String → Option ℚ) (backend : Nat → LlmAttempt)
    (query title : String) (maxRetries : Nat) (minInterval : ℚ) (st : RLState) :
    ℚ × RLState × List CallEvent :=
  let _prompt := buildPrompt query title
  let waitTime := max 0 (minInterval - (st.clock - st.last))
  let st1 : RLState := ⟨st.clock + waitTime, st.last⟩
  llmRetryLoop pyFloat backend minInterval maxRetries 1 st1

/-! ### Search-term loader: `read_search_terms`

The file is abstracted as its list of lines (Python iterates `for line in f`).
Each line is stripped and classified independently; kept lines are returned in
order.  The `FileNotFoundError` branch concerns the filesystem and is outside
this model. -/

/-- Classification of a single raw line by `read_search_terms`: `some t` keeps
the stripped line `t`, `none` discards the line. -/
def processLine (raw : String) : Option String :=
  let line := pyStrip raw
  if line = "" then none
  else if strStartsWith line "#" then none
  else if pyIsUpper line && decide (line.length < 40) then none
  else if strStartsWith line "Example:" || strStartsWith line "Pro-Tip:" ||
      strStartsWith line "Tips for" || strEndsWith line ":" then none
  else if pyStrip line = "AND: Narrows your search (all terms must be present)." ||
      pyStrip line = "OR: Broadens your search (any of the terms can be present)." then none
  else if ((containsSub line "AND" || containsSub line "OR") &&
        (containsSub line "(" || containsSub line ")")) ||
      (containsSub line "\"" && (containsSub line "AND" || containsSub line "OR")) then
    some line
  else none

/-- `read_search_terms`, over the file's lines. -/
def read_search_terms (lines : List String) : List String :=
  lines.filterMap processLine

/-! ### Landing-page hook and scraper: `find_pdf_on_landing_page`, `scholar_search` -/

/-- `find_pdf_on_landing_page(url, verbose)`: the MCP-removed stub; always
returns `None`. -/
def find_pdf_on_landing_page (_url : String) : Option String :=
  none

/-- Python `link.lower().endswith('.pdf')` on a string link. -/
def isPdfString (s : String) : Bool :=
  strEndsWith (pyLower s) ".pdf"

/-- Python truthiness of an `Optional[str]` link: false for `None` and `""`. -/
def linkTruthy : Option String → Bool
  | none => false
  | some s => s ≠ ""

/-- `if link and link.lower().endswith('.pdf')` on an `Optional[str]` link. -/
def isPdfLinkOpt : Option String → Bool
  | none => false
  | some s => s ≠ "" && isPdfString s

/-- One browser session as seen through the five-operation interface the
scraper needs: whether some navigation/driver step before result extraction
raised (caught by the outer `try`), the rendered `page_source`, and for each
scraped result node the outcome of extracting it — `none` when the per-node
`try` raised, otherwise the title and the `href` of its first anchor
(`none` when the node has no anchor). -/
structure BrowserSession where
  navFails : Bool
  pageSource : String
  nodes : List (Option (String × Option String))

/-- Link post-processing of one scraped result: a non-PDF link is offered to
`find_pdf_on_landing_page`, whose result (when found) replaces it. -/
def resolveScrapedLink : Option String → Option String
  | none => none
  | some l =>
    if ¬ isPdfString l then
      match find_pdf_on_landing_page l with
      | some u => some u
      | none => some l
    else some l

/-- `scholar_search(query, verbose, num_results)`: on a driver failure the
outer `except` leaves `results = []`; if `'captcha' in page_source.lower()`
nothing is scraped; otherwise the first `num_results` result nodes are
extracted best-effort, skipping nodes whose extraction raised. -/
def scholar_search (br : BrowserSession) (numResults : Nat) :
    List (String × Option String) :=
  if br.navFails then []
  else if containsSub (pyLower br.pageSource) "captcha" then []
  else
    (br.nodes.take numResults).filterMap (fun node =>
      node.map (fun tl => (tl.1, resolveScrapedLink tl.2)))

/-! ### Candidates, scoring thread, and the stable descending sort -/

/-- A `(title, link, score)` tuple as used by the selector and the download
engine.  Scores are Python floats, modelled as rationals. -/
structure Paper where
  title : String
  link : Option String
  score : ℚ
deriving DecidableEq, Repr

/-- The external world as the download engine and the scorer see it:
`requests.get` and the scoring primitive (`_llm_score_with_retry` applied to a
query and a title), both threaded through an abstract world state `ω`, so
outcomes may differ between calls. -/
structure HttpResponse where
  status : Nat
  contentType : String
deriving DecidableEq, Repr

/-- Oracles for the download engine over world state `ω`. -/
structure World (ω : Type) where
  httpGet : ω → String → Except String HttpResponse × ω
  llmScore : ω → String → String → ℚ × ω

/-- The sequential scoring loop shared by `select_top_papers_llm` and
`find_next_pdf_replacement`: `for title, link in candidates: score = ...;
scored.append((title, link, score))`. -/
def scoreListW {ω : Type} (W : World ω) (query : String) :
    List (String × Option String) → ω → List Paper × ω
  | [], w => ([], w)
  | (t, l) :: rest, w =>
    let out := W.llmScore w query t
    let tail := scoreListW W query rest out.2
    (⟨t, l, out.1⟩ :: tail.1, tail.2)

/-- The comparison underlying `scored.sort(key=lambda x: x[2], reverse=True)`:
`a` may precede `b` iff `a`'s score is at least `b`'s.  Python's sort is
stable, and a stable sort with this comparator is insertion sort with it. -/
def scoreGe (a b : Paper) : Prop := b.score ≤ a.score

instance : DecidableRel scoreGe := fun a b =>
  inferInstanceAs (Decidable (b.score ≤ a.score))

instance : IsTotal Paper scoreGe := ⟨fun a b => le_total b.score a.score⟩

instance : IsTrans Paper scoreGe := ⟨fun _ _ _ h1 h2 => le_trans h2 h1⟩

/-- `scored.sort(key=lambda x: x[2], reverse=True)`: the stable descending
sort by score. -/
def sortByScoreDesc (l : List Paper) : List Paper :=
  List.insertionSort scoreGe l

/-! ### `sanitize_filename` -/

/-- `sanitize_filename(name)`: drop the characters `\/:*?"<>|`, strip, replace
spaces by underscores, truncate to 100 characters. -/
def sanitize_filename (name : String) : String :=
  let removed := name.data.filter
    (fun c => !(['\\', '/', ':', '*', '?', '"', '<', '>', '|'].contains c))
  let stripped := pyStrip (String.mk removed)
  let replaced := stripped.data.map (fun c => if c = ' ' then '_' else c)
  String.mk (replaced.take 100)

/-! ### `select_top_papers_llm` and `find_next_pdf_replacement` -/

/-- `select_top_papers_llm(query, papers, llm_client, top_n, verbose)`: score
every candidate sequentially, sort stably by score descending, return the
first `top_n`.  Also returns the final world state of the scoring thread. -/
def select_top_papers_llm {ω : Type} (W : World ω) (query : String)
    (papers : List (String × Option String)) (topN : Nat) (w : ω) :
    List Paper × ω :=
  let scored := scoreListW W query papers w
  ((sortByScoreDesc scored.1).take topN, scored.2)

/-- `find_next_pdf_replacement(query, all_papers, used_links, llm_client,
verbose)`: filter the pool to truthy `.pdf` links not in `used_links`, score
them all, sort stably by score descending, return the best (or `None`). -/
def find_next_pdf_replacement {ω : Type} (W : World ω) (query : String)
    (allPapers : List (String × Option String)) (usedLinks : List (Option String))
    (w : ω) : Option Paper × ω :=
  let candidates := allPapers.filter
    (fun c => isPdfLinkOpt c.2 && !(usedLinks.contains c.2))
  if candidates.isEmpty then (none, w)
  else
    let scored := scoreListW W query candidates w
    match sortByScoreDesc scored.1 with
    | [] => (none, scored.2)
    | best :: _ => (some best, scored.2)

/-! ### Download engine: `download_pdfs` -/

/-- One entry of the manifest returned by `download_pdfs`:
`(title, link, score, status, filename-or-error)`. -/
structure AttemptRecord where
  title : String
  link : Option String
  score : ℚ
  status : String
  info : String
deriving DecidableEq, Repr

/-- The loop state of `download_pdfs`: the world, the caller's `papers` list
(used in place as the work queue), `used_links`, `results`, the success
counter `attempts` and the queue index `idx`. -/
structure DLState (ω : Type) where
  world : ω
  papers : List Paper
  used : List (Option String)
  results : List AttemptRecord
  attempts : Nat
  idx : Nat

/-- The backfill step shared by the fail and skip branches:
`if all_papers and query and llm_client:` (Python truthiness: a non-empty pool,
a non-empty query string, a provided client), consult
`find_next_pdf_replacement`; when it finds a replacement, append it to the
work queue and add its link to `used_links`. -/
def doBackfill {ω : Type} (W : World ω) (query : String)
    (allPapers : List (String × Option String)) (hasLlm : Bool)
    (st : DLState ω) : DLState ω :=
  if !allPapers.isEmpty && query ≠ "" && hasLlm then
    let found := find_next_pdf_replacement W query allPapers st.used st.world
    match found.1 with
    | some r =>
      { st with world := found.2, papers := st.papers ++ [r],
                used := r.link :: st.used }
    | none => { st with world := found.2 }
  else st

/-- The filename `os.path.join(dest_folder, f"{attempts+1}_{sanitized}.pdf")`. -/
def downloadFilename (destFolder : String) (attempts : Nat) (title : String) :
    String :=
  destFolder ++ "/" ++ toString (attempts + 1) ++ "_" ++ sanitize_filename title ++ ".pdf"

/-- `r.status_code == 200 and r.headers.get('content-type','').startswith('application/pdf')`. -/
def httpOk (r : HttpResponse) : Bool :=
  r.status == 200 && strStartsWith r.contentType "application/pdf"

/-- The skip tail of the non-PDF branch: append the `skip` record, run the
backfill step, advance the index. -/
def skipTail {ω : Type} (W : World ω) (query : String)
    (allPapers : List (String × Option String)) (hasLlm : Bool)
    (st : DLState ω) (p : Paper) : DLState ω :=
  let stS := { st with results :=
    st.results ++ [⟨p.title, p.link, p.score, "skip", "Not a direct PDF link"⟩] }
  let stB := doBackfill W query allPapers hasLlm stS
  { stB with idx := stB.idx + 1 }

/-- Processing of one dequeued work item `papers[idx]` by the body of the
`while` loop of `download_pdfs`.  The direct-PDF branch fetches the link and
records `success` (incrementing the success counter) or `fail` (triggering
backfill); the non-PDF branch consults `find_pdf_on_landing_page` (the stub,
so the landing download sub-branch is dead code, translated nonetheless) and
then records `skip` and triggers backfill.  Every branch advances `idx`. -/
def processItem {ω : Type} (W : World ω) (destFolder : String) (query : String)
    (allPapers : List (String × Option String)) (hasLlm : Bool)
    (st : DLState ω) (p : Paper) : DLState ω :=
  if isPdfLinkOpt p.link then
    let url := p.link.getD ""
    let got := W.httpGet st.world url
    let st1 := { st with world := got.2 }
    match got.1 with
    | Except.ok r =>
      if httpOk r then
        { st1 with
          results := st1.results ++
            [⟨p.title, p.link, p.score, "success",
              downloadFilename destFolder st1.attempts p.title⟩],
          attempts := st1.attempts + 1, idx := st1.idx + 1 }
      else
        let stF := { st1 with results := st1.results ++
          [⟨p.title, p.link, p.score, "fail",
            "Not a PDF or bad status: " ++ toString r.status⟩] }
        let stB := doBackfill W query allPapers hasLlm stF
        { stB with idx := stB.idx + 1 }
    | Except.error e =>
      let stF := { st1 with results := st1.results ++
        [⟨p.title, p.link, p.score, "fail", e⟩] }
      let stB := doBackfill W query allPapers hasLlm stF
      { stB with idx := stB.idx + 1 }
  else
    let pdfUrl : Option String :=
      match p.link with
      | some l => if l ≠ "" then find_pdf_on_landing_page l else none
      | none => none
    match pdfUrl with
    | some u =>
      let got := W.httpGet st.world u
      let st1 := { st with world := got.2 }
      match got.1 with
      | Except.ok r =>
        if httpOk r then
          { st1 with
            results := st1.results ++
              [⟨p.title, some u, p.score, "success",
                downloadFilename destFolder st1.attempts p.title⟩],
            attempts := st1.attempts + 1, idx := st1.idx + 1 }
        else
          let stF := { st1 with results := st1.results ++
            [⟨p.title, some u, p.score, "fail",
              "Not a PDF or bad status: " ++ toString r.status⟩] }
          skipTail W query allPapers hasLlm stF p
      | Except.error e =>
        let stF := { st1 with results := st1.results ++
          [⟨p.title, some u, p.score, "fail", e⟩] }
        skipTail W query allPapers hasLlm stF p
    | none => skipTail W query allPapers hasLlm st p

/-- The `while attempts < max_attempts and idx < len(papers)` loop of
`download_pdfs`, with explicit fuel; `none` means the fuel ran out before the
loop condition failed (the termination theorem shows enough fuel always
exists). -/
def downloadLoop {ω : Type} (W : World ω) (destFolder : String)
    (maxAttempts : Nat) (query : String)
    (allPapers : List (String × Option String)) (hasLlm : Bool) :
    Nat → DLState ω → Option (DLState ω)
  | 0, _ => none
  | fuel + 1, st =>
    if h : st.attempts < maxAttempts ∧ st.idx < st.papers.length then
      let p := st.papers.get ⟨st.idx, h.2⟩
      downloadLoop W destFolder maxAttempts query allPapers hasLlm fuel
        (processItem W destFolder query allPapers hasLlm st p)
    else some st

/-- The initial loop state of `download_pdfs`:
`used_links = set(link for _, link, _ in papers)`, empty manifest,
`attempts = 0`, `idx = 0`. -/
def dlInit {ω : Type} (papers : List Paper) (w : ω) : DLState ω :=
  ⟨w, papers, papers.map (fun p => p.link), [], 0, 0⟩

/-- The distinct truthy `.pdf` links occurring in the candidate pool. -/
def poolPdfLinks (allPapers : List (String × Option String)) :
    List (Option String) :=
  (allPapers.filterMap (fun c => if isPdfLinkOpt c.2 then some c.2 else none)).dedup

/-- Number of distinct pool PDF links not yet in `used`. -/
def unusedCount (allPapers : List (String × Option String))
    (used : List (Option String)) : Nat :=
  ((poolPdfLinks allPapers).filter (fun l => !used.contains l)).length

/-- Termination measure for the download loop: pending queue items plus
distinct still-unused pool PDF links (each backfill append consumes one). -/
def dlMeasure {ω : Type} (allPapers : List (String × Option String))
    (st : DLState ω) : Nat :=
  (st.papers.length - st.idx) + unusedCount allPapers st.used

/-- `download_pdfs(papers, dest_folder, verbose, max_attempts, query,
all_papers, llm_client)`: run the loop from the initial state with
provably-sufficient fuel; returns the final loop state (manifest `results`,
final work queue `papers`, `used_links`, counters). -/
def download_pdfs {ω : Type} (W : World ω) (papers : List Paper)
    (destFolder : String) (maxAttempts : Nat) (query : String)
    (allPapers : List (String × Option String)) (hasLlm : Bool) (w : ω) :
    Option (DLState ω) :=
  downloadLoop W destFolder maxAttempts query allPapers hasLlm
    (papers.length + allPapers.length + 1) (dlInit papers w)

/-- Number of `success` records in a manifest. -/
def countSuccess (results : List AttemptRecord) : Nat :=
  (results.filter (fun r => r.status == "success")).length

/-- Number of still-pending work-queue items with a truthy `.pdf` link. -/
def pdfCountFrom {ω : Type} (st : DLState ω) : Nat :=
  ((st.papers.drop st.idx).filter (fun p => isPdfLinkOpt p.link)).length

/-- Success-counting potential of a loop state: recorded successes plus
pending direct-PDF work items plus distinct unused pool PDF links.  It never
increases along the download loop, and bounds the final success count. -/
def dlPotential {ω : Type} (allPapers : List (String × Option String))
    (st : DLState ω) : Nat :=
  countSuccess st.results + pdfCountFrom st + unusedCount allPapers st.used

/-- Concrete world whose HTTP fetches always deliver an HTTP 200 PDF and
whose scorer always answers 1/2 (for witnesses). -/
def alwaysOkWorld : World Unit where
  httpGet := fun _ _ => (Except.ok ⟨200, "application/pdf"⟩, ())
  llmScore := fun _ _ _ => ((1 : ℚ), ())

/-- Concrete world whose HTTP fetches always raise and whose scorer always
answers 1/2 (for witnesses). -/
def alwaysFailWorld : World Unit where
  httpGet := fun _ _ => (Except.error "connection error", ())
  llmScore := fun _ _ _ => ((1 : ℚ), ())

/-- Concrete world whose scorer answers 1 for titles starting with `"b"` and
0 otherwise (for selector witnesses). -/
def titleScoreWorld : World Unit where
  httpGet := fun _ _ => (Except.error "connection error", ())
  llmScore := fun _ _ t => (if strStartsWith t "b" then (1 : ℚ) else 0, ())

/-- Backend whose calls always raise (for scorer witnesses). -/
def alwaysRaiseBackend : Nat → LlmAttempt :=
  fun _ => ⟨1, Except.error "API error"⟩

/-- Backend that always returns the response `"5"` after one second (for the
out-of-range scorer counterexample). -/
def returnsFiveBackend : Nat → LlmAttempt :=
  fun _ => ⟨1, Except.ok "5"⟩

/-- Backend that always returns the response `"1"` after one second. -/
def returnsOneBackend : Nat → LlmAttempt :=
  fun _ => ⟨1, Except.ok "1"⟩

/-- A concrete fragment of Python's `float(...)` parser: accepts exactly the
strings `"5"` and `"1"` (`float("5") = 5.0`, `float("1") = 1.0`); every
other string raises `ValueError` (modelled as `none`). -/
def pyFloatFrag : String → Option ℚ :=
  fun s => if s = "5" then some 5 else if s = "1" then some 1 else none

/-! ### Scorer lemmas -/

/-- The k-th backend attempt fails: `generate_content` raises, or its response
does not parse as a number. -/
def attemptFails (pyFloat : String → Option ℚ) (backend : Nat → LlmAttempt)
    (k : Nat) : Prop :=
  match (backend k).outcome with
  | Except.error _ => True
  | Except.ok s => pyFloat (pyStrip s) = none

/-- If every attempt fails, the retry loop returns `0.0`. -/
theorem llmRetryLoop_all_fail (pyFloat : String → Option ℚ)
    (backend : Nat → LlmAttempt) (minInterval : ℚ)
    (h : ∀ k, attemptFails pyFloat backend k) :
    ∀ remaining attempt st,
      (llmRetryLoop pyFloat backend minInterval remaining attempt st).1 = 0 := by
  intro remaining
  induction remaining with
  | zero => intro attempt st; rfl
  | succ r ih =>
    intro attempt st
    have hk := h attempt
    unfold attemptFails at hk
    unfold llmRetryLoop
    rcases hout : (backend attempt).outcome with e | s
    · simp only [hout]
      exact ih (attempt + 1) _
    · rw [hout] at hk
      simp only [hout, hk]
      exact ih (attempt + 1) _

/-- Every result of the retry loop is `0.0` or a value parsed from some
returned response. -/
theorem llmRetryLoop_result_cases (pyFloat : String → Option ℚ)
    (backend : Nat → LlmAttempt) (minInterval : ℚ) :
    ∀ remaining attempt st,
      (llmRetryLoop pyFloat backend minInterval remaining attempt st).1 = 0 ∨
      ∃ k s, (backend k).outcome = Except.ok s ∧
        pyFloat (pyStrip s) =
          some (llmRetryLoop pyFloat backend minInterval remaining attempt st).1 := by
  intro remaining
  induction remaining with
  | zero => intro attempt st; left; rfl
  | succ r ih =>
    intro attempt st
    unfold llmRetryLoop
    rcases hout : (backend attempt).outcome with e | s
    · simp only [hout]
      exact ih (attempt + 1) _
    · simp only [hout]
      rcases hp : pyFloat (pyStrip s) with _ | v
      · simp only
        exact ih (attempt + 1) _
      · right
        exact ⟨attempt, s, hout, hp⟩

/-- Temporal behaviour of the retry loop: the recorded timestamp never moves
backwards, it changes only to the completion time of a returned backend call,
every issued call is issued no earlier than the entry clock, and every
returned call's completion time is at most the final recorded timestamp. -/
theorem llmRetryLoop_temporal (pyFloat : String → Option ℚ)
    (backend : Nat → LlmAttempt) (minInterval : ℚ)
    (hI : 0 ≤ minInterval) (hdur : ∀ k, 0 ≤ (backend k).dur) :
    ∀ remaining attempt st, st.last ≤ st.clock →
      (st.last ≤ (llmRetryLoop pyFloat backend minInterval remaining attempt st).2.1.last) ∧
      ((llmRetryLoop pyFloat backend minInterval remaining attempt st).2.1.last = st.last ∨
        ∃ ev ∈ (llmRetryLoop pyFloat backend minInterval remaining attempt st).2.2,
          ev.returned = true ∧
          (llmRetryLoop pyFloat backend minInterval remaining attempt st).2.1.last = ev.retTime) ∧
      (∀ ev ∈ (llmRetryLoop pyFloat backend minInterval remaining attempt st).2.2,
        st.clock ≤ ev.issueTime) ∧
      (∀ ev ∈ (llmRetryLoop pyFloat backend minInterval remaining attempt st).2.2,
        ev.returned = true →
        ev.retTime ≤ (llmRetryLoop pyFloat backend minInterval remaining attempt st).2.1.last) := by
  intro remaining
  induction remaining with
  | zero =>
    intro attempt st hst
    refine ⟨le_refl _, Or.inl rfl, ?_, ?_⟩ <;> intro ev hev <;> simp [llmRetryLoop] at hev
  | succ r ih =>
    intro attempt st hst
    have hd := hdur attempt
    unfold llmRetryLoop
    rcases hout : (backend attempt).outcome with e | s
    · -- generate_content raised: timestamp untouched, clock advances
      simp only [hout]
      set st2 : RLState :=
        if r > 0 then ⟨st.clock + (backend attempt).dur + minInterval, st.last⟩
        else ⟨st.clock + (backend attempt).dur, st.last⟩ with hst2
      have hlast2 : st2.last = st.last := by
        by_cases hr : r > 0 <;> simp [hst2, hr]
      have hclock2 : st.clock ≤ st2.clock := by
        by_cases hr : r > 0 <;> simp [hst2, hr] <;> linarith
      have hinv2 : st2.last ≤ st2.clock := by
        rw [hlast2]; exact le_trans hst hclock2
      obtain ⟨iha, ihb, ihc, ihd⟩ := ih (attempt + 1) st2 hinv2
      refine ⟨?_, ?_, ?_, ?_⟩
      · exact hlast2 ▸ iha
      · rcases ihb with h | ⟨ev, hev, hret, hlt⟩
        · exact Or.inl (h.trans hlast2)
        · exact Or.inr ⟨ev, List.mem_cons_of_mem _ hev, hret, hlt⟩
      · intro ev hev
        rcases List.mem_cons.mp hev with h | h
        · subst h; exact le_refl _
        · exact le_trans hclock2 (ihc ev h)
      · intro ev hev hret
        rcases List.mem_cons.mp hev with h | h
        · subst h; simp at hret
        · exact ihd ev h hret
    · -- generate_content returned: timestamp set to the completion time
      simp only [hout]
      rcases hp : pyFloat (pyStrip s) with _ | v
      · -- float(result) raised after the timestamp update
        simp only [hp]
        set st2 : RLState :=
          if r > 0 then ⟨st.clock + (backend attempt).dur + minInterval,
                         st.clock + (backend attempt).dur⟩
          else ⟨st.clock + (backend attempt).dur, st.clock + (backend attempt).dur⟩ with hst2
        have hlast2 : st2.last = st.clock + (backend attempt).dur := by
          by_cases hr : r > 0 <;> simp [hst2, hr]
        have hclock2 : st.clock ≤ st2.clock := by
          by_cases hr : r > 0 <;> simp [hst2, hr] <;> linarith
        have hinv2 : st2.last ≤ st2.clock := by
          by_cases hr : r > 0 <;> simp [hst2, hr]; linarith
        obtain ⟨iha, ihb, ihc, ihd⟩ := ih (attempt + 1) st2 hinv2
        have hretle : st.clock + (backend attempt).dur ≤
            (llmRetryLoop pyFloat backend minInterval r (attempt + 1) st2).2.1.last := by
          rw [← hlast2]; exact iha
        refine ⟨?_, ?_, ?_, ?_⟩
        · have : st.last ≤ st.clock + (backend attempt).dur := by linarith
          exact le_trans this hretle
        · rcases ihb with h | ⟨ev, hev, hret, hlt⟩
          · exact Or.inr ⟨⟨st.clock, true, st.clock + (backend attempt).dur⟩,
              List.mem_cons_self _ _, rfl, h.trans hlast2⟩
          · exact Or.inr ⟨ev, List.mem_cons_of_mem _ hev, hret, hlt⟩
        · intro ev hev
          rcases List.mem_cons.mp hev with h | h
          · subst h; exact le_refl _
          · exact le_trans hclock2 (ihc ev h)
        · intro ev hev hret
          rcases List.mem_cons.mp hev with h | h
          · subst h; exact hretle
          · exact ihd ev h hret
      · -- parsed: loop returns, timestamp is this call's completion time
        simp only [hp]
        refine ⟨by simpa using le_trans hst (by linarith), ?_, ?_, ?_⟩
        · exact Or.inr ⟨⟨st.clock, true, st.clock + (backend attempt).dur⟩,
            List.mem_cons_self _ _, rfl, rfl⟩
        · intro ev hev
          rcases List.mem_cons.mp hev with h | h
          · subst h; exact le_refl _
          · simp at h
        · intro ev hev hret
          rcases List.mem_cons.mp hev with h | h
          · subst h; exact le_refl _
          · simp at h

/-- After the rate-limit wait of `_llm_score_with_retry`, the clock is at
least `last + min_interval`. -/
theorem waited_clock_ge (st : RLState) (minInterval : ℚ) :
    st.last + minInterval ≤ st.clock + max 0 (minInterval - (st.clock - st.last)) := by
  have h := le_max_right (0 : ℚ) (minInterval - (st.clock - st.last))
  linarith

/-- Temporal behaviour of one `_llm_score_with_retry` call: the timestamp is
updated only to the completion time of a backend call that returned, every
backend call is issued at least `min_interval` after the entry timestamp, and
every returned backend call finishes no later than the final timestamp. -/
theorem llm_score_with_retry_temporal (pyFloat : String → Option ℚ)
    (backend : Nat → LlmAttempt) (query title : String) (maxRetries : Nat)
    (minInterval : ℚ) (st : RLState)
    (hI : 0 ≤ minInterval) (hdur : ∀ k, 0 ≤ (backend k).dur) :
    (st.last ≤ (llm_score_with_retry pyFloat backend query title maxRetries minInterval st).2.1.last) ∧
    ((llm_score_with_retry pyFloat backend query title maxRetries minInterval st).2.1.last = st.last ∨
      ∃ ev ∈ (llm_score_with_retry pyFloat backend query title maxRetries minInterval st).2.2,
        ev.returned = true ∧
        (llm_score_with_retry pyFloat backend query title maxRetries minInterval st).2.1.last = ev.retTime) ∧
    (∀ ev ∈ (llm_score_with_retry pyFloat backend query title maxRetries minInterval st).2.2,
      st.last + minInterval ≤ ev.issueTime) ∧
    (∀ ev ∈ (llm_score_with_retry pyFloat backend query title maxRetries minInterval st).2.2,
      ev.returned = true →
      ev.retTime ≤ (llm_score_with_retry pyFloat backend query title maxRetries minInterval st).2.1.last) := by
  have hwait := waited_clock_ge st minInterval
  have hinv : st.last ≤ st.clock + max 0 (minInterval - (st.clock - st.last)) := by
    linarith
  obtain ⟨ha, hb, hc, hd⟩ := llmRetryLoop_temporal pyFloat backend minInterval hI hdur
    maxRetries 1 ⟨st.clock + max 0 (minInterval - (st.clock - st.last)), st.last⟩ hinv
  exact ⟨ha, hb, fun ev hev => le_trans hwait (hc ev hev), hd⟩

/-! ### Selector lemmas -/

/-- The scoring loop scores exactly the given candidates, in order: projecting
the scored list back to `(title, link)` pairs returns the input. -/
theorem scoreListW_proj {ω : Type} (W : World ω) (query : String) :
    ∀ (cands : List (String × Option String)) (w : ω),
      (scoreListW W query cands w).1.map (fun p => (p.title, p.link)) = cands := by
  intro cands
  induction cands with
  | nil => intro w; rfl
  | cons c rest ih =>
    intro w
    obtain ⟨t, l⟩ := c
    simp only [scoreListW, List.map_cons]
    exact congrArg _ (ih _)

/-- The scored list has one entry per candidate. -/
theorem scoreListW_length {ω : Type} (W : World ω) (query : String)
    (cands : List (String × Option String)) (w : ω) :
    (scoreListW W query cands w).1.length = cands.length := by
  have h := congrArg List.length (scoreListW_proj W query cands w)
  simpa using h

/-- Membership is preserved by the stable descending sort. -/
theorem mem_sortByScoreDesc (a : Paper) (l : List Paper) :
    a ∈ sortByScoreDesc l ↔ a ∈ l :=
  (List.perm_insertionSort scoreGe l).mem_iff

/-- The stable descending sort is sorted by `scoreGe`. -/
theorem sorted_sortByScoreDesc (l : List Paper) :
    (sortByScoreDesc l).Pairwise scoreGe :=
  List.sorted_insertionSort scoreGe l

/-- Stability of the descending sort: for each score value, the entries with
that score appear in the sorted list exactly as they appear in the input. -/
theorem sortByScoreDesc_filter_score (l : List Paper) (s : ℚ) :
    (sortByScoreDesc l).filter (fun p => p.score == s) =
      l.filter (fun p => p.score == s) := by
  set p : Paper → Bool := fun q => q.score == s with hp
  have hpair : (l.filter p).Pairwise scoreGe := by
    apply List.pairwise_of_forall_mem_list
    intro a ha b hb
    have ha' := (List.mem_filter.mp ha).2
    have hb' := (List.mem_filter.mp hb).2
    have ha2 : a.score = s := by simpa [hp] using ha'
    have hb2 : b.score = s := by simpa [hp] using hb'
    show b.score ≤ a.score
    rw [ha2, hb2]
  have hsub : List.Sublist (l.filter p) (sortByScoreDesc l) :=
    List.sublist_insertionSort hpair (List.filter_sublist l)
  have hself : (l.filter p).filter p = l.filter p :=
    List.filter_eq_self.mpr (fun a ha => (List.mem_filter.mp ha).2)
  have hsub2 : List.Sublist (l.filter p) ((sortByScoreDesc l).filter p) := by
    have := hsub.filter p
    rwa [hself] at this
  have hlen : ((sortByScoreDesc l).filter p).length = (l.filter p).length :=
    ((List.perm_insertionSort scoreGe l).filter p).length_eq
  exact (hsub2.eq_of_length_le (le_of_eq hlen)).symm

/-- C6: `select_top_papers_llm` scores every candidate, returns at most `n`
entries (exactly `min n (number of candidates)`, so all of them when fewer
than `n` exist, up to the sort's permutation), sorted by score descending
(`score[i] ≥ score[j]` for `i < j`), by a stable sort (entries with equal
scores keep their original relative order, expressed per score class). -/
theorem select_top_papers_llm_spec {ω : Type} (W : World ω) (query : String)
    (papers : List (String × Option String)) (n : Nat) (w : ω) :
    ((scoreListW W query papers w).1.map (fun p => (p.title, p.link)) = papers) ∧
    ((select_top_papers_llm W query papers n w).1 =
      (sortByScoreDesc (scoreListW W query papers w).1).take n) ∧
    ((select_top_papers_llm W query papers n w).1.length = min n papers.length) ∧
    (∀ (i j : Fin (select_top_papers_llm W query papers n w).1.length),
      (i : Nat) < (j : Nat) →
      (((select_top_papers_llm W query papers n w).1.get j).score ≤
        ((select_top_papers_llm W query papers n w).1.get i).score)) ∧
    (papers.length ≤ n →
      ((select_top_papers_llm W query papers n w).1.Perm
        (scoreListW W query papers w).1)) ∧
    (∀ s : ℚ,
      (sortByScoreDesc (scoreListW W query papers w).1).filter (fun p => p.score == s) =
        (scoreListW W query papers w).1.filter (fun p => p.score == s)) := by
  refine ⟨scoreListW_proj W query papers w, rfl, ?_, ?_, ?_,
    fun s => sortByScoreDesc_filter_score _ s⟩
  · show ((sortByScoreDesc (scoreListW W query papers w).1).take n).length = _
    rw [List.length_take]
    unfold sortByScoreDesc
    rw [List.length_insertionSort, scoreListW_length]
  · intro i j hij
    have hsorted : ((select_top_papers_llm W query papers n w).1).Pairwise scoreGe := by
      show ((sortByScoreDesc (scoreListW W query papers w).1).take n).Pairwise scoreGe
      exact (sorted_sortByScoreDesc _).sublist (List.take_sublist _ _)
    exact List.pairwise_iff_get.mp hsorted i j hij
  · intro hle
    show ((sortByScoreDesc (scoreListW W query papers w).1).take n).Perm _
    have hlen : (sortByScoreDesc (scoreListW W query papers w).1).length ≤ n := by
      unfold sortByScoreDesc
      rw [List.length_insertionSort, scoreListW_length]; exact hle
    rw [List.take_of_length_le hlen]
    exact List.perm_insertionSort scoreGe _

/-- C6 witness: on two concrete candidates with `n = 5`, the selector keeps
both entries (a permutation of the scored list) and sorts the higher-scored
title first. -/
theorem select_top_papers_llm_spec_witness :
    ([("alpha", (none : Option String)), ("beta", some "x")].length ≤ 5) ∧
    ((select_top_papers_llm titleScoreWorld "q"
        [("alpha", none), ("beta", some "x")] 5 ()).1.Perm
      ((scoreListW titleScoreWorld "q" [("alpha", none), ("beta", some "x")] ()).1)) ∧
    ((select_top_papers_llm titleScoreWorld "q"
        [("alpha", none), ("beta", some "x")] 5 ()).1 =
      [⟨"beta", some "x", 1⟩, ⟨"alpha", none, 0⟩]) := by
  refine ⟨by decide, (select_top_papers_llm_spec titleScoreWorld "q"
    [("alpha", none), ("beta", some "x")] 5 ()).2.2.2.2.1 (by decide), by decide⟩

/-- C4: if every one of the `max_retries` attempts fails — the backend call
raises, or its response does not parse as a number — then
`_llm_score_with_retry` returns exactly `0.0` (the model is total, so no
exception propagates to the caller). -/
theorem llm_score_with_retry_all_fail (pyFloat : String → Option ℚ)
    (backend : Nat → LlmAttempt) (query title : String) (maxRetries : Nat)
    (minInterval : ℚ) (st : RLState)
    (h : ∀ k, attemptFails pyFloat backend k) :
    (llm_score_with_retry pyFloat backend query title maxRetries minInterval st).1 = 0 :=
  llmRetryLoop_all_fail pyFloat backend minInterval h maxRetries 1 _

/-- C4 witness: with a backend that always raises, the default five attempts
yield exactly `0.0`. -/
theorem llm_score_with_retry_all_fail_witness :
    (∀ k, attemptFails pyFloatFrag alwaysRaiseBackend k) ∧
    (llm_score_with_retry pyFloatFrag alwaysRaiseBackend "q" "t" 5 13 ⟨0, 0⟩).1 = 0 :=
  ⟨fun _ => trivial,
    llm_score_with_retry_all_fail pyFloatFrag alwaysRaiseBackend "q" "t" 5 13 ⟨0, 0⟩
      (fun _ => trivial)⟩

/-- C3 counterexample: the claim "for every backend (including backends whose
responses are numeric strings outside [0,1]) the scoring primitive returns a
float in [0,1]" is false: with a backend that answers `"5"` (and Python's
`float("5") = 5.0`), `_llm_score_with_retry` returns `5`, outside `[0,1]` —
the parsed value is returned without clamping. -/
theorem llm_score_with_retry_range_counterexample :
    (llm_score_with_retry pyFloatFrag returnsFiveBackend "q" "t" 5 13 ⟨0, 0⟩).1 = 5 ∧
    ¬ ((llm_score_with_retry pyFloatFrag returnsFiveBackend "q" "t" 5 13 ⟨0, 0⟩).1 ≤ 1) := by
  constructor
  · rfl
  · intro h
    rw [show (llm_score_with_retry pyFloatFrag returnsFiveBackend "q" "t" 5 13 ⟨0, 0⟩).1 = 5 from rfl] at h
    exact absurd h (by norm_num)

/-- C3 amended: `_llm_score_with_retry` returns either `0.0` (when all
attempts fail) or the first successfully parsed response value verbatim; so
whenever every response that parses parses to a value in [0,1], the result is
in [0,1]. -/
theorem llm_score_with_retry_range (pyFloat : String → Option ℚ)
    (backend : Nat → LlmAttempt) (query title : String) (maxRetries : Nat)
    (minInterval : ℚ) (st : RLState)
    (h : ∀ k s v, (backend k).outcome = Except.ok s → pyFloat (pyStrip s) = some v →
      0 ≤ v ∧ v ≤ 1) :
    0 ≤ (llm_score_with_retry pyFloat backend query title maxRetries minInterval st).1 ∧
    (llm_score_with_retry pyFloat backend query title maxRetries minInterval st).1 ≤ 1 := by
  rcases llmRetryLoop_result_cases pyFloat backend minInterval maxRetries 1
    ⟨st.clock + max 0 (minInterval - (st.clock - st.last)), st.last⟩ with h0 | ⟨k, s, hk, hp⟩
  · constructor
    · rw [show (llm_score_with_retry pyFloat backend query title maxRetries minInterval st).1 =
        (llmRetryLoop pyFloat backend minInterval maxRetries 1
          ⟨st.clock + max 0 (minInterval - (st.clock - st.last)), st.last⟩).1 from rfl, h0]
    · rw [show (llm_score_with_retry pyFloat backend query title maxRetries minInterval st).1 =
        (llmRetryLoop pyFloat backend minInterval maxRetries 1
          ⟨st.clock + max 0 (minInterval - (st.clock - st.last)), st.last⟩).1 from rfl, h0]
      norm_num
  · exact h k s _ hk hp

/-- C3 amended witness: with a backend answering `"1"`, which parses to `1 ∈
[0,1]`, the result is in `[0,1]`. -/
theorem llm_score_with_retry_range_witness :
    (∀ k s v, (returnsOneBackend k).outcome = Except.ok s →
      pyFloatFrag (pyStrip s) = some v → 0 ≤ v ∧ v ≤ 1) ∧
    (0 ≤ (llm_score_with_retry pyFloatFrag returnsOneBackend "q" "t" 5 13 ⟨0, 0⟩).1 ∧
      (llm_score_with_retry pyFloatFrag returnsOneBackend "q" "t" 5 13 ⟨0, 0⟩).1 ≤ 1) := by
  have hside : ∀ k s v, (returnsOneBackend k).outcome = Except.ok s →
      pyFloatFrag (pyStrip s) = some v → 0 ≤ v ∧ v ≤ 1 := by
    intro k s v hs hv
    have hs1 : "1" = s := by
      simpa [returnsOneBackend] using hs
    subst hs1
    have : v = 1 := by
      have hv' : pyFloatFrag "1" = some v := by
        simpa using hv
      simpa [pyFloatFrag] using hv'.symm
    subst this
    norm_num
  exact ⟨hside,
    llm_score_with_retry_range pyFloatFrag returnsOneBackend "q" "t" 5 13 ⟨0, 0⟩ hside⟩

/-- C5: across two consecutive scoring calls through one agent instance
(nonnegative interval and backend durations): (i) the shared rate-limit
timestamp changes only to the completion time of a backend call that
returned; (ii) every backend call issued by the second scoring call comes at
least `min_interval` after the timestamp recorded by the first; (iii) hence
any backend call of the first scoring call that returned (in particular the
successful one) precedes every backend call of the second scoring call by at
least `min_interval`. -/
theorem llm_score_with_retry_rate_limit (pyFloat : String → Option ℚ)
    (backend1 backend2 : Nat → LlmAttempt) (q1 t1 q2 t2 : String)
    (maxR1 maxR2 : Nat) (minInterval : ℚ) (st : RLState)
    (hI : 0 ≤ minInterval)
    (hd1 : ∀ k, 0 ≤ (backend1 k).dur) (hd2 : ∀ k, 0 ≤ (backend2 k).dur) :
    ((llm_score_with_retry pyFloat backend1 q1 t1 maxR1 minInterval st).2.1.last = st.last ∨
      ∃ ev ∈ (llm_score_with_retry pyFloat backend1 q1 t1 maxR1 minInterval st).2.2,
        ev.returned = true ∧
        (llm_score_with_retry pyFloat backend1 q1 t1 maxR1 minInterval st).2.1.last =
          ev.retTime) ∧
    (∀ ev2 ∈ (llm_score_with_retry pyFloat backend2 q2 t2 maxR2 minInterval
        (llm_score_with_retry pyFloat backend1 q1 t1 maxR1 minInterval st).2.1).2.2,
      (llm_score_with_retry pyFloat backend1 q1 t1 maxR1 minInterval st).2.1.last +
        minInterval ≤ ev2.issueTime) ∧
    (∀ ev1 ∈ (llm_score_with_retry pyFloat backend1 q1 t1 maxR1 minInterval st).2.2,
      ev1.returned = true →
      ∀ ev2 ∈ (llm_score_with_retry pyFloat backend2 q2 t2 maxR2 minInterval
          (llm_score_with_retry pyFloat backend1 q1 t1 maxR1 minInterval st).2.1).2.2,
        ev1.retTime + minInterval ≤ ev2.issueTime) := by
  obtain ⟨_, hb1, _, hd1'⟩ := llm_score_with_retry_temporal pyFloat backend1 q1 t1
    maxR1 minInterval st hI hd1
  obtain ⟨_, _, hc2, _⟩ := llm_score_with_retry_temporal pyFloat backend2 q2 t2
    maxR2 minInterval
    (llm_score_with_retry pyFloat backend1 q1 t1 maxR1 minInterval st).2.1 hI hd2
  refine ⟨hb1, hc2, ?_⟩
  intro ev1 hev1 hret1 ev2 hev2
  have h1 : ev1.retTime ≤
      (llm_score_with_retry pyFloat backend1 q1 t1 maxR1 minInterval st).2.1.last :=
    hd1' ev1 hev1 hret1
  have h2 := hc2 ev2 hev2
  linarith

/-- C5 witness: concrete two-call run (interval 13, all durations 1). -/
theorem llm_score_with_retry_rate_limit_witness :
    ((0 : ℚ) ≤ 13) ∧ (∀ k, (0 : ℚ) ≤ (returnsOneBackend k).dur) ∧
    (∀ ev1 ∈ (llm_score_with_retry pyFloatFrag returnsOneBackend "q" "t" 5 13 ⟨0, 0⟩).2.2,
      ev1.returned = true →
      ∀ ev2 ∈ (llm_score_with_retry pyFloatFrag returnsOneBackend "q2" "t2" 5 13
          (llm_score_with_retry pyFloatFrag returnsOneBackend "q" "t" 5 13 ⟨0, 0⟩).2.1).2.2,
        ev1.retTime + 13 ≤ ev2.issueTime) := by
  refine ⟨by norm_num, fun k => by norm_num [returnsOneBackend], ?_⟩
  exact (llm_score_with_retry_rate_limit pyFloatFrag returnsOneBackend returnsOneBackend
    "q" "t" "q2" "t2" 5 5 13 ⟨0, 0⟩ (by norm_num)
    (fun k => by norm_num [returnsOneBackend])
    (fun k => by norm_num [returnsOneBackend])).2.2

/-- C7: `read_search_terms` keeps only stripped lines that pass the
boolean-query heuristic and none of the skip rules, and on the five-line
input of the specification's test it returns exactly the two parenthesised
boolean queries, in order. -/
theorem read_search_terms_spec :
    (∀ lines t, t ∈ read_search_terms lines → ∃ raw ∈ lines, processLine raw = some t) ∧
    (∀ raw t, processLine raw = some t →
      t = pyStrip raw ∧
      (((containsSub t "AND" || containsSub t "OR") &&
          (containsSub t "(" || containsSub t ")")) ||
        (containsSub t "\"" && (containsSub t "AND" || containsSub t "OR"))) = true ∧
      t ≠ "" ∧ strStartsWith t "#" = false ∧
      (pyIsUpper t && decide (t.length < 40)) = false ∧
      (strStartsWith t "Example:" || strStartsWith t "Pro-Tip:" ||
        strStartsWith t "Tips for" || strEndsWith t ":") = false ∧
      pyStrip t ≠ "AND: Narrows your search (all terms must be present)." ∧
      pyStrip t ≠ "OR: Broadens your search (any of the terms can be present).") ∧
    read_search_terms ["# Heading", "(\"foo\" OR \"bar\") AND (baz)", "Example: x",
        "AND: Narrows your search (all terms must be present).",
        "(\"alpha\" OR \"beta\") AND (gamma)"] =
      ["(\"foo\" OR \"bar\") AND (baz)", "(\"alpha\" OR \"beta\") AND (gamma)"] := by
  refine ⟨?_, ?_, by decide⟩
  · intro lines t ht
    exact List.mem_filterMap.mp ht
  · intro raw t h
    simp only [processLine] at h
    split_ifs at h with h1 h2 h3 h4 h5 h6
    all_goals simp only [Option.some.injEq] at h
    subst h
    refine ⟨rfl, by simpa using h6, h1, ?_, ?_, ?_, ?_, ?_⟩
    · simpa using h2
    · simpa using h3
    · simpa using h4
    · intro hc; exact h5 (by simp [hc])
    · intro hc; exact h5 (by simp [hc])

/-- C8: `scholar_search` returns the empty sequence whenever the rendered
page source contains the captcha marker; otherwise it returns at most
`num_results` pairs, one per successfully parsed result node among the first
`num_results` (unparsable nodes are skipped, not fatal). -/
theorem scholar_search_spec (br : BrowserSession) (n : Nat) :
    (containsSub (pyLower br.pageSource) "captcha" = true → scholar_search br n = []) ∧
    (scholar_search br n).length ≤ n ∧
    (br.navFails = false → containsSub (pyLower br.pageSource) "captcha" = false →
      (scholar_search br n).length =
        ((br.nodes.take n).filter (fun node => node.isSome)).length) := by
  have hlen : ∀ (l : List (Option (String × Option String))),
      (l.filterMap (fun node =>
        node.map (fun tl => (tl.1, resolveScrapedLink tl.2)))).length =
      (l.filter (fun node => node.isSome)).length := by
    intro l
    induction l with
    | nil => rfl
    | cons hd tl ih =>
      cases hd with
      | none => simpa using ih
      | some v => simpa using ih
  refine ⟨?_, ?_, ?_⟩
  · intro hc
    unfold scholar_search
    rcases hnav : br.navFails with _ | _
    · simp [hnav, hc]
    · simp [hnav]
  · unfold scholar_search
    rcases hnav : br.navFails with _ | _
    · rcases hc : containsSub (pyLower br.pageSource) "captcha" with _ | _
      · simp only [hnav, hc, Bool.false_eq_true, if_false]
        rw [hlen]
        exact le_trans (List.length_filter_le _ _) (List.length_take_le _ _)
      · simp [hnav, hc]
    · simp [hnav]
  · intro hnav hc
    unfold scholar_search
    simp only [hnav, hc, Bool.false_eq_true, if_false]
    exact hlen _

/-- C8 witness: a blocked page yields `[]`; an unblocked page with three
nodes, one unparsable, yields the two parsed pairs for `num_results = 5`. -/
theorem scholar_search_spec_witness :
    (containsSub (pyLower "Please solve this CAPTCHA") "captcha" = true) ∧
    (scholar_search ⟨false, "Please solve this CAPTCHA",
        [some ("A", some "http://x/a.pdf")]⟩ 5 = []) ∧
    (scholar_search ⟨false, "results page",
        [some ("A", some "http://x/a.pdf"), none, some ("B", none)]⟩ 5).length =
      (([some ("A", some "http://x/a.pdf"), none, some ("B", none)].take 5).filter
        (fun node => node.isSome)).length := by
  refine ⟨by decide, ?_, ?_⟩
  · exact (scholar_search_spec ⟨false, "Please solve this CAPTCHA",
      [some ("A", some "http://x/a.pdf")]⟩ 5).1 (by decide)
  · exact (scholar_search_spec ⟨false, "results page",
      [some ("A", some "http://x/a.pdf"), none, some ("B", none)]⟩ 5).2.2 rfl (by decide)

/-- C7 witness: the first kept query of the five-line test input comes from
an input line via `processLine`. -/
theorem read_search_terms_spec_witness :
    ("(\"foo\" OR \"bar\") AND (baz)" ∈ read_search_terms ["# Heading",
        "(\"foo\" OR \"bar\") AND (baz)", "Example: x",
        "AND: Narrows your search (all terms must be present).",
        "(\"alpha\" OR \"beta\") AND (gamma)"]) ∧
    (∃ raw ∈ ["# Heading", "(\"foo\" OR \"bar\") AND (baz)", "Example: x",
        "AND: Narrows your search (all terms must be present).",
        "(\"alpha\" OR \"beta\") AND (gamma)"],
      processLine raw = some "(\"foo\" OR \"bar\") AND (baz)") :=
  ⟨by decide, read_search_terms_spec.1 ["# Heading",
      "(\"foo\" OR \"bar\") AND (baz)", "Example: x",
      "AND: Narrows your search (all terms must be present).",
      "(\"alpha\" OR \"beta\") AND (gamma)"] "(\"foo\" OR \"bar\") AND (baz)"
    (by decide)⟩

/-! ### Download-engine lemmas -/

/-- Filtering with a stronger predicate yields at most as many elements. -/
theorem filter_length_mono {α : Type} (l : List α) (p q : α → Bool)
    (himp : ∀ a, q a = true → p a = true) :
    (l.filter q).length ≤ (l.filter p).length := by
  induction l with
  | nil => exact le_refl _
  | cons a tl ih =>
    rcases hq : q a with _ | _
    · rcases hp : p a with _ | _
      · simpa [hq, hp] using ih
      · simp only [List.filter_cons, hq, hp]
        exact le_trans ih (Nat.le_succ _)
    · have hp := himp a hq
      simp only [List.filter_cons, hq, hp]
      exact Nat.succ_le_succ ih

/-- Filtering with a strictly stronger predicate (witnessed by an element
satisfying `p` but not `q`) yields strictly fewer elements. -/
theorem filter_length_lt {α : Type} (l : List α) (p q : α → Bool)
    (himp : ∀ a, q a = true → p a = true) (a0 : α) (ha0 : a0 ∈ l)
    (hp0 : p a0 = true) (hq0 : q a0 = false) :
    (l.filter q).length < (l.filter p).length := by
  induction l with
  | nil => cases ha0
  | cons a tl ih =>
    rcases List.mem_cons.mp ha0 with heq | hmem
    · subst heq
      simp only [List.filter_cons, hp0, hq0]
      exact Nat.lt_succ_of_le (filter_length_mono tl p q himp)
    · rcases hq : q a with _ | _
      · rcases hp : p a with _ | _
        · simpa [hq, hp] using ih hmem
        · simp only [List.filter_cons, hq, hp]
          exact Nat.lt_succ_of_lt (ih hmem)
      · have hp := himp a hq
        simp only [List.filter_cons, hq, hp]
        exact Nat.succ_lt_succ (ih hmem)

/-- `countSuccess` adds over appended manifests. -/
theorem countSuccess_append (a b : List AttemptRecord) :
    countSuccess (a ++ b) = countSuccess a + countSuccess b := by
  unfold countSuccess
  rw [List.filter_append, List.length_append]

/-- A replacement found by `find_next_pdf_replacement` has a truthy `.pdf`
link, its link is not in the used-link set at the moment of selection, and it
comes from the candidate pool. -/
theorem find_next_pdf_replacement_spec {ω : Type} (W : World ω) (query : String)
    (pool : List (String × Option String)) (used : List (Option String)) (w : ω)
    (r : Paper) (w' : ω)
    (h : find_next_pdf_replacement W query pool used w = (some r, w')) :
    isPdfLinkOpt r.link = true ∧ used.contains r.link = false ∧
      (r.title, r.link) ∈ pool := by
  unfold find_next_pdf_replacement at h
  by_cases hemp : (pool.filter
      (fun c => isPdfLinkOpt c.2 && !(used.contains c.2))).isEmpty
  · rw [if_pos hemp] at h
    cases h
  · rw [if_neg hemp] at h
    dsimp only at h
    split at h
    · cases h
    · rename_i best rest hs
      have hr : best = r := by
        have hfst := congrArg Prod.fst h
        simpa using hfst
      subst hr
      have hmem1 : best ∈ sortByScoreDesc (scoreListW W query
          (pool.filter (fun c => isPdfLinkOpt c.2 && !(used.contains c.2))) w).1 := by
        rw [hs]; exact List.mem_cons_self _ _
      have hmem2 : best ∈ (scoreListW W query
          (pool.filter (fun c => isPdfLinkOpt c.2 && !(used.contains c.2))) w).1 :=
        (mem_sortByScoreDesc _ _).mp hmem1
      have hmem3 : (best.title, best.link) ∈
          pool.filter (fun c => isPdfLinkOpt c.2 && !(used.contains c.2)) := by
        have := List.mem_map_of_mem (fun p => (p.title, p.link)) hmem2
        rwa [scoreListW_proj] at this
      have hfilter := List.mem_filter.mp hmem3
      have hand := hfilter.2
      simp only [Bool.and_eq_true, Bool.not_eq_true'] at hand
      exact ⟨hand.1, hand.2, hfilter.1⟩

/-- Effect of the backfill step on the loop state: manifest, counters and
index are untouched, and either nothing else changes or exactly one
replacement (unused, `.pdf`-linked, from the pool) is appended to the work
queue with its link added to the used set. -/
theorem doBackfill_spec {ω : Type} (W : World ω) (query : String)
    (pool : List (String × Option String)) (hasLlm : Bool) (st : DLState ω) :
    (doBackfill W query pool hasLlm st).results = st.results ∧
    (doBackfill W query pool hasLlm st).attempts = st.attempts ∧
    (doBackfill W query pool hasLlm st).idx = st.idx ∧
    (((doBackfill W query pool hasLlm st).papers = st.papers ∧
        (doBackfill W query pool hasLlm st).used = st.used) ∨
      (∃ r, (doBackfill W query pool hasLlm st).papers = st.papers ++ [r] ∧
        (doBackfill W query pool hasLlm st).used = r.link :: st.used ∧
        isPdfLinkOpt r.link = true ∧ st.used.contains r.link = false ∧
        (r.title, r.link) ∈ pool)) := by
  unfold doBackfill
  by_cases hguard : (!pool.isEmpty && query ≠ "" && hasLlm) = true
  · rw [if_pos hguard]
    rcases hfound : find_next_pdf_replacement W query pool st.used st.world with ⟨ro, w2⟩
    rcases ro with _ | r
    · refine ⟨?_, ?_, ?_, Or.inl ⟨?_, ?_⟩⟩ <;> simp [hfound]
    · obtain ⟨h1, h2, h3⟩ := find_next_pdf_replacement_spec W query pool st.used
        st.world r w2 hfound
      refine ⟨?_, ?_, ?_, Or.inr ⟨r, ?_, ?_, h1, h2, h3⟩⟩ <;> simp [hfound]
  · rw [if_neg hguard]
    exact ⟨rfl, rfl, rfl, Or.inl ⟨rfl, rfl⟩⟩

/-- Effect of the skip tail: the `skip` record is appended, the success
counter is unchanged, the index advances, and the queue/used set change
exactly as the backfill step dictates. -/
theorem skipTail_spec {ω : Type} (W : World ω) (query : String)
    (pool : List (String × Option String)) (hasLlm : Bool) (st : DLState ω)
    (p : Paper) :
    (skipTail W query pool hasLlm st p).idx = st.idx + 1 ∧
    (skipTail W query pool hasLlm st p).results =
      st.results ++ [⟨p.title, p.link, p.score, "skip", "Not a direct PDF link"⟩] ∧
    (skipTail W query pool hasLlm st p).attempts = st.attempts ∧
    (((skipTail W query pool hasLlm st p).papers = st.papers ∧
        (skipTail W query pool hasLlm st p).used = st.used) ∨
      (∃ r, (skipTail W query pool hasLlm st p).papers = st.papers ++ [r] ∧
        (skipTail W query pool hasLlm st p).used = r.link :: st.used ∧
        isPdfLinkOpt r.link = true ∧ st.used.contains r.link = false ∧
        (r.title, r.link) ∈ pool)) := by
  obtain ⟨hres, hatt, hidx, hdisj⟩ := doBackfill_spec W query pool hasLlm
    { st with results :=
        st.results ++ [⟨p.title, p.link, p.score, "skip", "Not a direct PDF link"⟩] }
  unfold skipTail
  dsimp only
  exact ⟨by rw [hidx], hres, hatt, hdisj⟩

/-- With the landing-page hook being the always-`None` stub, processing a
work item whose link is empty or not `.pdf`-suffixed is exactly the skip
tail. -/
theorem processItem_nonpdf {ω : Type} (W : World ω) (destF query : String)
    (pool : List (String × Option String)) (hasLlm : Bool) (st : DLState ω)
    (p : Paper) (hpdf : isPdfLinkOpt p.link = false) :
    processItem W destF query pool hasLlm st p = skipTail W query pool hasLlm st p := by
  unfold processItem
  rw [if_neg (by simp [hpdf])]
  rcases hl : p.link with _ | l
  · rfl
  · simp only [find_pdf_on_landing_page, ite_self]

/-- Effect of processing one work item: the index advances by one; the
manifest is extended by this item's records, whose success count is added to
the success counter, is at most one, can be one only for a direct-PDF item,
and leaves the queue untouched when a success occurred; every appended record
whose link is empty-or-non-PDF is the `skip` record, which is the only record
of a non-PDF item; and the queue/used set either stay unchanged or gain
exactly one unused pool PDF replacement together with its link. -/
theorem processItem_spec {ω : Type} (W : World ω) (destF query : String)
    (pool : List (String × Option String)) (hasLlm : Bool) (st : DLState ω)
    (p : Paper) :
    (processItem W destF query pool hasLlm st p).idx = st.idx + 1 ∧
    (∃ newRecs,
      (processItem W destF query pool hasLlm st p).results = st.results ++ newRecs ∧
      (processItem W destF query pool hasLlm st p).attempts =
        st.attempts + countSuccess newRecs ∧
      countSuccess newRecs ≤ (if isPdfLinkOpt p.link = true then 1 else 0) ∧
      (1 ≤ countSuccess newRecs →
        (processItem W destF query pool hasLlm st p).papers = st.papers ∧
        (processItem W destF query pool hasLlm st p).used = st.used) ∧
      (∀ rcd ∈ newRecs, isPdfLinkOpt rcd.link = false →
        rcd.status = "skip" ∧ rcd.info = "Not a direct PDF link") ∧
      (isPdfLinkOpt p.link = false →
        newRecs = [⟨p.title, p.link, p.score, "skip", "Not a direct PDF link"⟩])) ∧
    (((processItem W destF query pool hasLlm st p).papers = st.papers ∧
        (processItem W destF query pool hasLlm st p).used = st.used) ∨
      (∃ r, (processItem W destF query pool hasLlm st p).papers = st.papers ++ [r] ∧
        (processItem W destF query pool hasLlm st p).used = r.link :: st.used ∧
        isPdfLinkOpt r.link = true ∧ st.used.contains r.link = false ∧
        (r.title, r.link) ∈ pool)) := by
  by_cases hpdf : isPdfLinkOpt p.link = true
  · unfold processItem
    rw [if_pos hpdf]
    dsimp only
    rcases hget : W.httpGet st.world (p.link.getD "") with ⟨resp, w1⟩
    dsimp only
    clear hget
    rcases resp with e | r0
    · -- requests.get raised
      dsimp only
      obtain ⟨hres, hatt, hidx, hdisj⟩ := doBackfill_spec W query pool hasLlm
        { st with
          world := w1,
          results := st.results ++ [⟨p.title, p.link, p.score, "fail", e⟩] }
      refine ⟨by rw [hidx], ⟨[⟨p.title, p.link, p.score, "fail", e⟩], ?_, ?_, ?_, ?_, ?_, ?_⟩, ?_⟩
      · exact hres
      · rw [hatt]
        simp [countSuccess]
      · simp [countSuccess, hpdf]
      · intro hcs
        simp [countSuccess] at hcs
      · intro rcd hrcd hfalse
        have : rcd = ⟨p.title, p.link, p.score, "fail", e⟩ := by simpa using hrcd
        subst this
        rw [hpdf] at hfalse
        cases hfalse
      · intro hfalse
        rw [hpdf] at hfalse
        cases hfalse
      · exact hdisj
    · -- requests.get returned
      dsimp only
      by_cases hok : httpOk r0 = true
      · rw [if_pos hok]
        refine ⟨rfl,
          ⟨[⟨p.title, p.link, p.score, "success",
              downloadFilename destF st.attempts p.title⟩], rfl, ?_, ?_, ?_, ?_, ?_⟩,
          Or.inl ⟨rfl, rfl⟩⟩
        · simp [countSuccess]
        · simp [countSuccess, hpdf]
        · intro hcs
          exact ⟨rfl, rfl⟩
        · intro rcd hrcd hfalse
          have : rcd = ⟨p.title, p.link, p.score, "success",
              downloadFilename destF st.attempts p.title⟩ := by simpa using hrcd
          subst this
          rw [hpdf] at hfalse
          cases hfalse
        · intro hfalse
          rw [hpdf] at hfalse
          cases hfalse
      · rw [if_neg hok]
        obtain ⟨hres, hatt, hidx, hdisj⟩ := doBackfill_spec W query pool hasLlm
          { st with
            world := w1,
            results := st.results ++ [⟨p.title, p.link, p.score, "fail",
              "Not a PDF or bad status: " ++ toString r0.status⟩] }
        refine ⟨by rw [hidx],
          ⟨[⟨p.title, p.link, p.score, "fail",
              "Not a PDF or bad status: " ++ toString r0.status⟩], ?_, ?_, ?_, ?_, ?_, ?_⟩, ?_⟩
        · exact hres
        · rw [hatt]
          simp [countSuccess]
        · simp [countSuccess, hpdf]
        · intro hcs
          simp [countSuccess] at hcs
        · intro rcd hrcd hfalse
          have : rcd = ⟨p.title, p.link, p.score, "fail",
              "Not a PDF or bad status: " ++ toString r0.status⟩ := by simpa using hrcd
          subst this
          rw [hpdf] at hfalse
          cases hfalse
        · intro hfalse
          rw [hpdf] at hfalse
          cases hfalse
        · exact hdisj
  · have hpdf' : isPdfLinkOpt p.link = false := by
      simpa using hpdf
    rw [processItem_nonpdf W destF query pool hasLlm st p hpdf']
    obtain ⟨hidx, hres, hatt, hdisj⟩ := skipTail_spec W query pool hasLlm st p
    refine ⟨hidx,
      ⟨[⟨p.title, p.link, p.score, "skip", "Not a direct PDF link"⟩], hres, ?_, ?_, ?_, ?_, ?_⟩,
      hdisj⟩
    · rw [hatt]
      simp [countSuccess]
    · simp [countSuccess]
    · intro hcs
      simp [countSuccess] at hcs
    · intro rcd hrcd _
      have : rcd = ⟨p.title, p.link, p.score, "skip", "Not a direct PDF link"⟩ := by
        simpa using hrcd
      subst this
      exact ⟨rfl, rfl⟩
    · intro _
      rfl

/-- Adding a link to the used set cannot increase the unused count. -/
theorem unusedCount_cons_le (pool : List (String × Option String))
    (used : List (Option String)) (x : Option String) :
    unusedCount pool (x :: used) ≤ unusedCount pool used := by
  apply filter_length_mono
  intro a ha
  simp only [Bool.not_eq_true'] at ha ⊢
  rcases hc : used.contains a with _ | _
  · rfl
  · exfalso
    simp [List.contains_cons] at ha
    exact ha.2 (by simpa using hc)

/-- Adding a pool PDF link that was still unused strictly decreases the
unused count. -/
theorem unusedCount_cons_lt (pool : List (String × Option String))
    (used : List (Option String)) (x : Option String)
    (hx : x ∈ poolPdfLinks pool) (hun : used.contains x = false) :
    unusedCount pool (x :: used) < unusedCount pool used := by
  apply filter_length_lt _ _ _ _ x hx
  · simpa using hun
  · simp [List.contains_cons]
  · intro a ha
    simp only [Bool.not_eq_true'] at ha ⊢
    rcases hc : used.contains a with _ | _
    · rfl
    · exfalso
      simp [List.contains_cons] at ha
      exact ha.2 (by simpa using hc)

/-- A truthy `.pdf` link occurring in the pool occurs in `poolPdfLinks`. -/
theorem mem_poolPdfLinks (pool : List (String × Option String)) (t : String)
    (x : Option String) (hx : isPdfLinkOpt x = true) (hmem : (t, x) ∈ pool) :
    x ∈ poolPdfLinks pool := by
  unfold poolPdfLinks
  rw [List.mem_dedup]
  exact List.mem_filterMap.mpr ⟨(t, x), hmem, by simp [hx]⟩

/-- Splitting the pending-PDF count at the current item. -/
theorem pendingPdf_split (papers : List Paper) (idx : Nat) (h : idx < papers.length) :
    ((papers.drop idx).filter (fun q => isPdfLinkOpt q.link)).length =
      (if isPdfLinkOpt (papers.get ⟨idx, h⟩).link = true then 1 else 0) +
      ((papers.drop (idx + 1)).filter (fun q => isPdfLinkOpt q.link)).length := by
  rw [List.drop_eq_getElem_cons h, List.filter_cons]
  rcases hf : isPdfLinkOpt papers[idx].link with _ | _
  · simp [hf, List.get_eq_getElem]
  · simp [hf, List.get_eq_getElem]
    omega

/-- The pending-PDF count after appending one item to the queue. -/
theorem pendingPdf_append (papers : List Paper) (idx : Nat) (r : Paper)
    (h : idx + 1 ≤ papers.length) :
    (((papers ++ [r]).drop (idx + 1)).filter (fun q => isPdfLinkOpt q.link)).length =
      ((papers.drop (idx + 1)).filter (fun q => isPdfLinkOpt q.link)).length +
      (if isPdfLinkOpt r.link = true then 1 else 0) := by
  rw [List.drop_append_of_le_length h, List.filter_append, List.length_append]
  rcases hf : isPdfLinkOpt r.link with _ | _
  · simp [hf, List.filter]
  · simp [hf, List.filter]

/-- Processing one work item strictly decreases the termination measure. -/
theorem processItem_measure {ω : Type} (W : World ω) (destF query : String)
    (pool : List (String × Option String)) (hasLlm : Bool) (st : DLState ω)
    (p : Paper) (hlt : st.idx < st.papers.length) :
    dlMeasure pool (processItem W destF query pool hasLlm st p) < dlMeasure pool st := by
  obtain ⟨hidx, -, hdisj⟩ := processItem_spec W destF query pool hasLlm st p
  unfold dlMeasure unusedCount
  rcases hdisj with ⟨hpap, hused⟩ | ⟨r, hpap, hused, hrpdf, hrun, hrmem⟩
  · rw [hidx, hpap, hused]
    have : st.papers.length - (st.idx + 1) < st.papers.length - st.idx := by
      omega
    omega
  · rw [hidx, hpap, hused, List.length_append]
    have hlt2 : unusedCount pool (r.link :: st.used) < unusedCount pool st.used :=
      unusedCount_cons_lt pool st.used r.link
        (mem_poolPdfLinks pool r.title r.link hrpdf hrmem) hrun
    unfold unusedCount at hlt2
    simp only [List.length_singleton]
    omega

/-- Processing one work item never increases the success-counting potential. -/
theorem processItem_potential {ω : Type} (W : World ω) (destF query : String)
    (pool : List (String × Option String)) (hasLlm : Bool) (st : DLState ω)
    (p : Paper) (hlt : st.idx < st.papers.length)
    (hp : p = st.papers.get ⟨st.idx, hlt⟩) :
    dlPotential pool (processItem W destF query pool hasLlm st p) ≤
      dlPotential pool st := by
  obtain ⟨hidx, ⟨newRecs, hres, hatt, hcsle, hnofill, -, -⟩, hdisj⟩ :=
    processItem_spec W destF query pool hasLlm st p
  have hsplit := pendingPdf_split st.papers st.idx hlt
  rw [← hp] at hsplit
  unfold dlPotential pdfCountFrom
  rw [hidx, hres, countSuccess_append]
  rcases hdisj with ⟨hpap, hused⟩ | ⟨r, hpap, hused, hrpdf, hrun, hrmem⟩
  · rw [hpap, hused]
    rcases hf : isPdfLinkOpt p.link with _ | _
    · rw [hf] at hsplit hcsle
      simp only [if_neg (by simp : ¬ (false = true))] at hsplit hcsle
      omega
    · rw [hf] at hsplit hcsle
      simp only [if_pos rfl] at hsplit hcsle
      omega
  · have hcs0 : countSuccess newRecs = 0 := by
      by_contra hne
      have h1 : 1 ≤ countSuccess newRecs := by omega
      obtain ⟨hpap2, -⟩ := hnofill h1
      rw [hpap] at hpap2
      have := congrArg List.length hpap2
      simp at this
    have happ := pendingPdf_append st.papers st.idx r (by omega)
    have hlt2 : unusedCount pool (r.link :: st.used) < unusedCount pool st.used :=
      unusedCount_cons_lt pool st.used r.link
        (mem_poolPdfLinks pool r.title r.link hrpdf hrmem) hrun
    rw [hpap, hused, hcs0, happ, if_pos hrpdf]
    rcases hf : isPdfLinkOpt p.link with _ | _
    · rw [hf] at hsplit
      simp only [if_neg (by simp : ¬ (false = true))] at hsplit
      omega
    · rw [hf] at hsplit
      simp only [if_pos rfl] at hsplit
      omega

/-- Run lemma for the download loop: when it finishes, the loop condition has
failed; the work queue has only grown, by unused pool PDF replacements; the
manifest has only grown, the success counter advanced by exactly the number
of appended `success` records, and every appended record with an
empty-or-non-PDF link is the `skip` record; the queue-links-are-used
invariant is preserved; and the success-counting potential has not
increased. -/
theorem downloadLoop_spec {ω : Type} (W : World ω) (destF : String) (maxA : Nat)
    (query : String) (pool : List (String × Option String)) (hasLlm : Bool) :
    ∀ (fuel : Nat) (st final : DLState ω),
      downloadLoop W destF maxA query pool hasLlm fuel st = some final →
      (¬ (final.attempts < maxA ∧ final.idx < final.papers.length)) ∧
      (∃ tl, final.papers = st.papers ++ tl ∧
        ∀ r ∈ tl, isPdfLinkOpt r.link = true ∧ (r.title, r.link) ∈ pool) ∧
      (∃ newRecs, final.results = st.results ++ newRecs ∧
        final.attempts = st.attempts + countSuccess newRecs ∧
        (∀ rcd ∈ newRecs, isPdfLinkOpt rcd.link = false →
          rcd.status = "skip" ∧ rcd.info = "Not a direct PDF link")) ∧
      ((∀ q ∈ st.papers, st.used.contains q.link = true) →
        ∀ q ∈ final.papers, final.used.contains q.link = true) ∧
      dlPotential pool final ≤ dlPotential pool st := by
  intro fuel
  induction fuel with
  | zero =>
    intro st final h
    cases h
  | succ fuel ih =>
    intro st final h
    unfold downloadLoop at h
    split at h
    · -- loop body runs once, then the smaller fuel finishes
      rename_i hcond
      obtain ⟨hstop, ⟨tl1, hpap1, htl1⟩, ⟨n1, hres1, hatt1, hcls1⟩, hinv1, hpot1⟩ :=
        ih _ final h
      obtain ⟨hidx0, ⟨n0, hres0, hatt0, hcs0, hnofill0, hcls0, hskip0⟩, hdisj0⟩ :=
        processItem_spec W destF query pool hasLlm st
          (st.papers.get ⟨st.idx, hcond.2⟩)
      have hpot0 := processItem_potential W destF query pool hasLlm st
        (st.papers.get ⟨st.idx, hcond.2⟩) hcond.2 rfl
      refine ⟨hstop, ?_, ?_, ?_, le_trans hpot1 hpot0⟩
      · rcases hdisj0 with ⟨hpap0, -⟩ | ⟨r, hpap0, -, hrpdf, -, hrmem⟩
        · exact ⟨tl1, by rw [hpap1, hpap0], htl1⟩
        · refine ⟨[r] ++ tl1, by rw [hpap1, hpap0, List.append_assoc], ?_⟩
          intro q hq
          rcases List.mem_append.mp hq with hq | hq
          · have : q = r := by simpa using hq
            subst this
            exact ⟨hrpdf, hrmem⟩
          · exact htl1 q hq
      · refine ⟨n0 ++ n1, ?_, ?_, ?_⟩
        · rw [hres1, hres0, List.append_assoc]
        · rw [hatt1, hatt0, countSuccess_append]
          omega
        · intro rcd hrcd
          rcases List.mem_append.mp hrcd with hm | hm
          · exact hcls0 rcd hm
          · exact hcls1 rcd hm
      · intro hbase
        apply hinv1
        rcases hdisj0 with ⟨hpap0, hused0⟩ | ⟨r, hpap0, hused0, hrpdf, -, -⟩
        · rw [hpap0, hused0]
          exact hbase
        · rw [hpap0, hused0]
          intro q hq
          rcases List.mem_append.mp hq with hm | hm
          · have := hbase q hm
            simp [List.contains_cons]
            exact Or.inr (by simpa using this)
          · have : q = r := by simpa using hm
            subst this
            simp [List.contains_cons]
    · -- loop condition failed: the final state is the current state
      rename_i hcond
      have hfin : st = final := by
        simpa using h
      subst hfin
      refine ⟨hcond, ⟨[], by simp, by simp⟩, ⟨[], by simp, ?_, by simp⟩, fun hb => hb,
        le_refl _⟩
      simp [countSuccess]

/-- Enough fuel always finishes the download loop. -/
theorem downloadLoop_total {ω : Type} (W : World ω) (destF : String) (maxA : Nat)
    (query : String) (pool : List (String × Option String)) (hasLlm : Bool) :
    ∀ (fuel : Nat) (st : DLState ω), dlMeasure pool st < fuel →
      ∃ final, downloadLoop W destF maxA query pool hasLlm fuel st = some final := by
  intro fuel
  induction fuel with
  | zero =>
    intro st h
    omega
  | succ fuel ih =>
    intro st h
    unfold downloadLoop
    by_cases hcond : st.attempts < maxA ∧ st.idx < st.papers.length
    · rw [dif_pos hcond]
      apply ih
      have := processItem_measure W destF query pool hasLlm st
        (st.papers.get ⟨st.idx, hcond.2⟩) hcond.2
      omega
    · rw [dif_neg hcond]
      exact ⟨st, rfl⟩

/-- `download_pdfs` always returns (the fuel given to the loop exceeds the
termination measure of the initial state). -/
theorem download_pdfs_total {ω : Type} (W : World ω) (papers : List Paper)
    (destFolder : String) (maxAttempts : Nat) (query : String)
    (allPapers : List (String × Option String)) (hasLlm : Bool) (w : ω) :
    ∃ final, download_pdfs W papers destFolder maxAttempts query allPapers hasLlm w =
      some final := by
  apply downloadLoop_total
  have h1 : unusedCount allPapers ((dlInit papers w).used) ≤
      (poolPdfLinks allPapers).length := List.length_filter_le _ _
  have h2 : (poolPdfLinks allPapers).length ≤ allPapers.length :=
    le_trans (List.Sublist.length_le (List.dedup_sublist _))
      (List.length_filterMap_le _ _)
  unfold dlMeasure
  have h3 : (dlInit papers w).papers.length - (dlInit papers w).idx ≤ papers.length := by
    simp [dlInit]
  omega

/-- Counting bound at the initial state: when the selected papers' PDF links
are pairwise distinct and all occur among the pool's PDF links, the initial
potential is at most the number of distinct pool PDF links. -/
theorem dlInit_potential_bound {ω : Type} (pool : List (String × Option String))
    (papers : List Paper) (w : ω)
    (hnd : ((papers.filter (fun q => isPdfLinkOpt q.link)).map (fun q => q.link)).Nodup)
    (hsub : ∀ l ∈ (papers.filter (fun q => isPdfLinkOpt q.link)).map (fun q => q.link),
      l ∈ poolPdfLinks pool) :
    dlPotential pool (dlInit papers w) ≤ (poolPdfLinks pool).length := by
  have hDnodup : (poolPdfLinks pool).Nodup := List.nodup_dedup _
  have hpart := List.length_eq_length_filter_add
    (fun l => (papers.map (fun q => q.link)).contains l) (l := poolPdfLinks pool)
  have hLsub : ∀ l ∈ (papers.filter (fun q => isPdfLinkOpt q.link)).map (fun q => q.link),
      l ∈ (poolPdfLinks pool).filter
        (fun l => (papers.map (fun q => q.link)).contains l) := by
    intro l hl
    rw [List.mem_filter]
    refine ⟨hsub l hl, ?_⟩
    obtain ⟨q, hq, hql⟩ := List.mem_map.mp hl
    have hq' : q ∈ papers := (List.mem_filter.mp hq).1
    have : l ∈ papers.map (fun q => q.link) := hql ▸ List.mem_map_of_mem _ hq'
    simpa using this
  have hLlen : ((papers.filter (fun q => isPdfLinkOpt q.link)).map
      (fun q => q.link)).length ≤
      ((poolPdfLinks pool).filter
        (fun l => (papers.map (fun q => q.link)).contains l)).length := by
    have hfn : ((poolPdfLinks pool).filter
        (fun l => (papers.map (fun q => q.link)).contains l)).Nodup :=
      hDnodup.filter _
    have hsubF : ((papers.filter (fun q => isPdfLinkOpt q.link)).map
        (fun q => q.link)).toFinset ⊆
        ((poolPdfLinks pool).filter
          (fun l => (papers.map (fun q => q.link)).contains l)).toFinset := by
      intro x hx
      rw [List.mem_toFinset] at hx ⊢
      exact hLsub x hx
    calc ((papers.filter (fun q => isPdfLinkOpt q.link)).map (fun q => q.link)).length
        = ((papers.filter (fun q => isPdfLinkOpt q.link)).map
            (fun q => q.link)).toFinset.card := (List.toFinset_card_of_nodup hnd).symm
      _ ≤ ((poolPdfLinks pool).filter
            (fun l => (papers.map (fun q => q.link)).contains l)).toFinset.card :=
          Finset.card_le_card hsubF
      _ = ((poolPdfLinks pool).filter
            (fun l => (papers.map (fun q => q.link)).contains l)).length :=
          List.toFinset_card_of_nodup hfn
  have hinitA : countSuccess (dlInit papers w).results = 0 := rfl
  have hinitP : pdfCountFrom (dlInit papers w) =
      ((papers.filter (fun q => isPdfLinkOpt q.link)).map (fun q => q.link)).length := by
    unfold pdfCountFrom
    simp [dlInit]
  have hinitU : unusedCount pool (dlInit papers w).used =
      ((poolPdfLinks pool).filter
        (fun l => !((papers.map (fun q => q.link)).contains l))).length := rfl
  unfold dlPotential
  rw [hinitA, hinitP, hinitU]
  omega

/-- C2 amended: `download_pdfs` always terminates, the loop having stopped
exactly because the success counter reached `max_attempts` or the queue index
passed the end of the queue (the counter counting exactly the `success`
records); and when the selected list's PDF links are pairwise distinct and
each occurs among the pool's PDF links, a pool with fewer distinct usable PDF
links than `max_attempts` yields fewer than `max_attempts` successes. -/
theorem download_pdfs_terminates :
    (∀ (ω : Type) (W : World ω) (papers : List Paper) (destFolder : String)
      (maxAttempts : Nat) (query : String) (pool : List (String × Option String))
      (hasLlm : Bool) (w : ω),
      ∃ final, download_pdfs W papers destFolder maxAttempts query pool hasLlm w =
        some final) ∧
    (∀ (ω : Type) (W : World ω) (papers : List Paper) (destFolder : String)
      (maxAttempts : Nat) (query : String) (pool : List (String × Option String))
      (hasLlm : Bool) (w : ω) (final : DLState ω),
      download_pdfs W papers destFolder maxAttempts query pool hasLlm w = some final →
      (maxAttempts ≤ final.attempts ∨ final.papers.length ≤ final.idx) ∧
      final.attempts = countSuccess final.results) ∧
    (∀ (ω : Type) (W : World ω) (papers : List Paper) (destFolder : String)
      (maxAttempts : Nat) (query : String) (pool : List (String × Option String))
      (hasLlm : Bool) (w : ω) (final : DLState ω),
      ((papers.filter (fun q => isPdfLinkOpt q.link)).map (fun q => q.link)).Nodup →
      (∀ l ∈ (papers.filter (fun q => isPdfLinkOpt q.link)).map (fun q => q.link),
        l ∈ poolPdfLinks pool) →
      (poolPdfLinks pool).length < maxAttempts →
      download_pdfs W papers destFolder maxAttempts query pool hasLlm w = some final →
      countSuccess final.results < maxAttempts) := by
  refine ⟨fun ω W papers destF maxA query pool hasLlm w =>
    download_pdfs_total W papers destF maxA query pool hasLlm w, ?_, ?_⟩
  · intro ω W papers destF maxA query pool hasLlm w final h
    obtain ⟨hstop, -, ⟨newRecs, hres, hatt, -⟩, -, -⟩ :=
      downloadLoop_spec W destF maxA query pool hasLlm _ _ final h
    constructor
    · omega
    · have hres' : final.results = newRecs := by
        simpa [dlInit] using hres
      rw [hres', hatt]
      simp [dlInit]
  · intro ω W papers destF maxA query pool hasLlm w final hnd hsub hD h
    obtain ⟨-, -, -, -, hpot⟩ :=
      downloadLoop_spec W destF maxA query pool hasLlm _ _ final h
    have hbound := dlInit_potential_bound pool papers w hnd hsub
    have hge : countSuccess final.results ≤ dlPotential pool final := by
      unfold dlPotential
      omega
    omega

/-- C2 counterexample: as universally stated the claim is false — with the
selected list `[("t", "http://a.pdf", 1)]`, an empty pool (zero usable PDF
links, fewer than `max_attempts = 1`) and HTTP fetches that succeed,
`download_pdfs` records exactly one success, which is not fewer than
`max_attempts`. -/
theorem download_pdfs_pool_bound_counterexample :
    ((download_pdfs alwaysOkWorld [⟨"t", some "http://a.pdf", 1⟩] "d" 1 "q"
        ([] : List (String × Option String)) true ()).map
      (fun final => countSuccess final.results) = some 1) ∧
    (poolPdfLinks ([] : List (String × Option String))).length = 0 ∧
    ¬ ((1 : Nat) < 1) := by
  exact ⟨rfl, rfl, by omega⟩

/-- C2 amended witness: one selected PDF paper drawn from a one-link pool,
`max_attempts = 2`, failing HTTP fetches: fewer than two successes. -/
theorem download_pdfs_terminates_witness :
    ((([⟨"a", some "http://x.pdf", (1 : ℚ)⟩] :
        List Paper).filter (fun q => isPdfLinkOpt q.link)).map (fun q => q.link)).Nodup ∧
    (poolPdfLinks [("a", some "http://x.pdf")]).length < 2 ∧
    ((download_pdfs alwaysFailWorld [⟨"a", some "http://x.pdf", 1⟩] "d" 2 "q"
        [("a", some "http://x.pdf")] true ()).map
      (fun final => decide (countSuccess final.results < 2)) = some true) := by
  refine ⟨by decide, by decide, ?_⟩
  have hsome : (download_pdfs alwaysFailWorld [⟨"a", some "http://x.pdf", 1⟩] "d" 2 "q"
      [("a", some "http://x.pdf")] true ()).isSome = true := rfl
  obtain ⟨final, hrun⟩ := Option.isSome_iff_exists.mp hsome
  rw [hrun]
  have hlt := download_pdfs_terminates.2.2 Unit alwaysFailWorld
    [⟨"a", some "http://x.pdf", 1⟩] "d" 2 "q" [("a", some "http://x.pdf")] true () final
    (by decide) (by decide) (by decide) hrun
  simp [hlt]

/-- C1: the used-link set initially holds every selected paper's link; a
backfill replacement always has a truthy `.pdf` link that is not in the
used-link set at the moment of selection; and throughout any `download_pdfs`
run every queued paper's link is in the used-link set (the replacement's link
is added when it is queued), so a used link is never chosen again. -/
theorem download_pdfs_used_link_invariant :
    (∀ (ω : Type) (papers : List Paper) (w : ω) (p : Paper), p ∈ papers →
      (dlInit papers w).used.contains p.link = true) ∧
    (∀ (ω : Type) (W : World ω) (query : String)
      (pool : List (String × Option String)) (used : List (Option String)) (w : ω)
      (r : Paper) (w' : ω),
      find_next_pdf_replacement W query pool used w = (some r, w') →
      isPdfLinkOpt r.link = true ∧ used.contains r.link = false) ∧
    (∀ (ω : Type) (W : World ω) (papers : List Paper) (destFolder : String)
      (maxAttempts : Nat) (query : String) (pool : List (String × Option String))
      (hasLlm : Bool) (w : ω) (final : DLState ω),
      download_pdfs W papers destFolder maxAttempts query pool hasLlm w = some final →
      ∀ q ∈ final.papers, final.used.contains q.link = true) := by
  refine ⟨?_, ?_, ?_⟩
  · intro ω papers w p hp
    have : p.link ∈ papers.map (fun q => q.link) := List.mem_map_of_mem _ hp
    simpa [dlInit] using this
  · intro ω W query pool used w r w' h
    obtain ⟨h1, h2, -⟩ := find_next_pdf_replacement_spec W query pool used w r w' h
    exact ⟨h1, h2⟩
  · intro ω W papers destF maxA query pool hasLlm w final h
    obtain ⟨-, -, -, hinv, -⟩ :=
      downloadLoop_spec W destF maxA query pool hasLlm _ _ final h
    apply hinv
    intro q hq
    have : q.link ∈ papers.map (fun r => r.link) := List.mem_map_of_mem _ hq
    simpa [dlInit] using this

/-- C1 witness: concrete initial set membership, a concrete replacement
choice, and a concrete run on which the final queue's links are all used. -/
theorem download_pdfs_used_link_invariant_witness :
    ((⟨"t", some "x", (1 : ℚ)⟩ : Paper) ∈ ([⟨"t", some "x", 1⟩] : List Paper)) ∧
    ((dlInit ([⟨"t", some "x", 1⟩] : List Paper) ()).used.contains (some "x") = true) ∧
    (find_next_pdf_replacement alwaysFailWorld "q" [("b", some "http://y.pdf")]
        ([] : List (Option String)) () =
      (some ⟨"b", some "http://y.pdf", 1⟩, ())) ∧
    (isPdfLinkOpt (some "http://y.pdf") = true ∧
      ([] : List (Option String)).contains (some "http://y.pdf") = false) ∧
    ((download_pdfs alwaysFailWorld [⟨"a", some "http://x.pdf", 1⟩] "d" 1 "q"
        [("b", some "http://y.pdf")] true ()).map
      (fun final => decide (∀ q ∈ final.papers, final.used.contains q.link = true)) =
      some true) := by
  refine ⟨by decide, ?_, by decide, ?_, ?_⟩
  · exact download_pdfs_used_link_invariant.1 Unit [⟨"t", some "x", 1⟩] ()
      ⟨"t", some "x", 1⟩ (by decide)
  · exact download_pdfs_used_link_invariant.2.1 Unit alwaysFailWorld "q"
      [("b", some "http://y.pdf")] [] () ⟨"b", some "http://y.pdf", 1⟩ () (by decide)
  · have hsome : (download_pdfs alwaysFailWorld [⟨"a", some "http://x.pdf", 1⟩] "d" 1 "q"
        [("b", some "http://y.pdf")] true ()).isSome = true := rfl
    obtain ⟨final, hrun⟩ := Option.isSome_iff_exists.mp hsome
    rw [hrun]
    have hall := download_pdfs_used_link_invariant.2.2 Unit alwaysFailWorld
      [⟨"a", some "http://x.pdf", 1⟩] "d" 1 "q" [("b", some "http://y.pdf")] true ()
      final hrun
    exact congrArg some (decide_eq_true hall)

/-- C9: the landing-page hook always returns `None`; consequently processing
any dequeued work item whose link is empty or not `.pdf`-suffixed is exactly
the skip tail — one `skip` record followed by the backfill step — and in any
`download_pdfs` run every manifest record with an empty-or-non-PDF link has
status `skip` (never `success` or `fail` via the landing-page path). -/
theorem download_pdfs_nonpdf_skip :
    (∀ url, find_pdf_on_landing_page url = none) ∧
    (∀ (ω : Type) (W : World ω) (destFolder query : String)
      (pool : List (String × Option String)) (hasLlm : Bool) (st : DLState ω)
      (p : Paper), isPdfLinkOpt p.link = false →
      processItem W destFolder query pool hasLlm st p =
        skipTail W query pool hasLlm st p) ∧
    (∀ (ω : Type) (W : World ω) (papers : List Paper) (destFolder : String)
      (maxAttempts : Nat) (query : String) (pool : List (String × Option String))
      (hasLlm : Bool) (w : ω) (final : DLState ω),
      download_pdfs W papers destFolder maxAttempts query pool hasLlm w = some final →
      ∀ rcd ∈ final.results, isPdfLinkOpt rcd.link = false →
        rcd.status = "skip" ∧ rcd.info = "Not a direct PDF link") := by
  refine ⟨fun _ => rfl, ?_, ?_⟩
  · intro ω W destF query pool hasLlm st p hpdf
    exact processItem_nonpdf W destF query pool hasLlm st p hpdf
  · intro ω W papers destF maxA query pool hasLlm w final h
    obtain ⟨-, -, ⟨newRecs, hres, -, hcls⟩, -, -⟩ :=
      downloadLoop_spec W destF maxA query pool hasLlm _ _ final h
    intro rcd hrcd hfalse
    have hres' : final.results = newRecs := by
      simpa [dlInit] using hres
    rw [hres'] at hrcd
    exact hcls rcd hrcd hfalse

/-- C9 witness: a concrete run whose single work item has no link records
exactly one `skip` record. -/
theorem download_pdfs_nonpdf_skip_witness :
    (find_pdf_on_landing_page "http://landing" = none) ∧
    (isPdfLinkOpt ((⟨"t", none, (1 : ℚ)⟩ : Paper).link) = false) ∧
    (processItem alwaysOkWorld "d" "q" [("b", some "http://y.pdf")] true
        (dlInit [⟨"t", none, 1⟩] ()) ⟨"t", none, 1⟩ =
      skipTail alwaysOkWorld "q" [("b", some "http://y.pdf")] true
        (dlInit [⟨"t", none, 1⟩] ()) ⟨"t", none, 1⟩) ∧
    ((download_pdfs alwaysOkWorld [⟨"t", none, 1⟩] "d" 1 "q"
        ([] : List (String × Option String)) true ()).map
      (fun final => decide (∀ rcd ∈ final.results, isPdfLinkOpt rcd.link = false →
        rcd.status = "skip" ∧ rcd.info = "Not a direct PDF link")) = some true) ∧
    ((download_pdfs alwaysOkWorld [⟨"t", none, 1⟩] "d" 1 "q"
        ([] : List (String × Option String)) true ()).map
      (fun final => final.results.map (fun rcd => rcd.status)) = some ["skip"]) := by
  refine ⟨download_pdfs_nonpdf_skip.1 "http://landing", by decide, ?_, ?_, rfl⟩
  · exact download_pdfs_nonpdf_skip.2.1 Unit alwaysOkWorld "d" "q"
      [("b", some "http://y.pdf")] true (dlInit [⟨"t", none, 1⟩] ())
      ⟨"t", none, 1⟩ (by decide)
  · have hsome : (download_pdfs alwaysOkWorld [⟨"t", none, 1⟩] "d" 1 "q"
        ([] : List (String × Option String)) true ()).isSome = true := rfl
    obtain ⟨final, hrun⟩ := Option.isSome_iff_exists.mp hsome
    rw [hrun]
    have hall := download_pdfs_nonpdf_skip.2.2 Unit alwaysOkWorld [⟨"t", none, 1⟩]
      "d" 1 "q" [] true () final hrun
    exact congrArg some (decide_eq_true hall)

/-- C10: `download_pdfs` uses the caller's `papers` list itself as the work
queue: the final queue extends the input list in place, gaining exactly the
backfill replacements (each a pool candidate with a truthy `.pdf` link), so
after a call with successful backfills the caller's list is longer than
before — it is not copied and not left unchanged. -/
theorem download_pdfs_queue_growth :
    ∀ (ω : Type) (W : World ω) (papers : List Paper) (destFolder : String)
      (maxAttempts : Nat) (query : String) (pool : List (String × Option String))
      (hasLlm : Bool) (w : ω) (final : DLState ω),
      download_pdfs W papers destFolder maxAttempts query pool hasLlm w = some final →
      ∃ tl, final.papers = papers ++ tl ∧
        ∀ r ∈ tl, isPdfLinkOpt r.link = true ∧ (r.title, r.link) ∈ pool := by
  intro ω W papers destF maxA query pool hasLlm w final h
  obtain ⟨-, ⟨tl, hpap, htl⟩, -, -, -⟩ :=
    downloadLoop_spec W destF maxA query pool hasLlm _ _ final h
  exact ⟨tl, hpap, htl⟩

/-- C10 witness: a concrete run in which the failed download backfills one
replacement, so the caller's one-element list ends two elements long. -/
theorem download_pdfs_queue_growth_witness :
    ((download_pdfs alwaysFailWorld [⟨"a", some "http://x.pdf", 1⟩] "d" 1 "q"
        [("b", some "http://y.pdf")] true ()).map
      (fun final => final.papers.length) = some 2) ∧
    ((download_pdfs alwaysFailWorld [⟨"a", some "http://x.pdf", 1⟩] "d" 1 "q"
        [("b", some "http://y.pdf")] true ()).elim False
      (fun final => ∃ tl, final.papers = [⟨"a", some "http://x.pdf", 1⟩] ++ tl ∧
        ∀ r ∈ tl, isPdfLinkOpt r.link = true ∧
          (r.title, r.link) ∈ [("b", some "http://y.pdf")])) := by
  refine ⟨rfl, ?_⟩
  have hsome : (download_pdfs alwaysFailWorld [⟨"a", some "http://x.pdf", 1⟩] "d" 1 "q"
      [("b", some "http://y.pdf")] true ()).isSome = true := rfl
  obtain ⟨final, hrun⟩ := Option.isSome_iff_exists.mp hsome
  rw [hrun]
  exact download_pdfs_queue_growth Unit alwaysFailWorld
    [⟨"a", some "http://x.pdf", 1⟩] "d" 1 "q" [("b", some "http://y.pdf")] true ()
    final hrun
